import Mathlib

/-!
Verification development for the roster_opt repository: shallow embeddings of
the daily-fantasy lineup optimizers (Formula 1, MLB, and NBA/WNBA Showdown
variants) and proofs about their multi-lineup generation loops.

The external IP solver is modelled as an oracle `Model → Option Sel`;
theorems that depend on the solver's behaviour take explicit hypotheses
(solutions returned satisfy the model's constraints, and, where needed,
are optimal).  Monetary amounts are integers as in the source; projected
points (Python floats) are modelled as rationals.  Each `solve` call of the
source increments the `solves` counter of the run result.
-/

/-- First-occurrence deduplication, the semantics of pandas `Series.unique`
(used for `self.teams`, driver-name lists, and the `player_vars` dict keys). -/
def uniqueFirst {α : Type} [DecidableEq α] (l : List α) : List α :=
  l.foldl (fun acc a => if a ∈ acc then acc else acc ++ [a]) []

theorem mem_uniqueFirstAux {α : Type} [DecidableEq α] (l : List α) :
    ∀ (acc : List α) (a : α),
      (a ∈ l.foldl (fun acc a => if a ∈ acc then acc else acc ++ [a]) acc) ↔ (a ∈ acc ∨ a ∈ l) := by
  induction l with
  | nil => intro acc a; simp
  | cons b t ih =>
    intro acc a
    simp only [List.foldl_cons]
    by_cases hb : b ∈ acc
    · rw [if_pos hb, ih]
      constructor
      · rintro (h | h)
        · exact Or.inl h
        · exact Or.inr (List.mem_cons_of_mem _ h)
      · rintro (h | h)
        · exact Or.inl h
        · rcases List.mem_cons.mp h with h | h
          · exact Or.inl (h ▸ hb)
          · exact Or.inr h
    · rw [if_neg hb, ih]
      constructor
      · rintro (h | h)
        · rcases List.mem_append.mp h with h | h
          · exact Or.inl h
          · simp at h; exact Or.inr (List.mem_cons.mpr (Or.inl h))
        · exact Or.inr (List.mem_cons_of_mem _ h)
      · rintro (h | h)
        · exact Or.inl (List.mem_append.mpr (Or.inl h))
        · rcases List.mem_cons.mp h with h | h
          · exact Or.inl (List.mem_append.mpr (Or.inr (by simp [h])))
          · exact Or.inr h

theorem mem_uniqueFirst {α : Type} [DecidableEq α] (l : List α) (a : α) :
    a ∈ uniqueFirst l ↔ a ∈ l := by
  unfold uniqueFirst
  rw [mem_uniqueFirstAux]
  simp

theorem nodup_uniqueFirstAux {α : Type} [DecidableEq α] (l : List α) :
    ∀ acc : List α, acc.Nodup →
      (l.foldl (fun acc a => if a ∈ acc then acc else acc ++ [a]) acc).Nodup := by
  induction l with
  | nil => intro acc h; simpa using h
  | cons b t ih =>
    intro acc h
    simp only [List.foldl_cons]
    by_cases hb : b ∈ acc
    · rw [if_pos hb]; exact ih acc h
    · rw [if_neg hb]
      exact ih _ (by simp [List.nodup_append, h, hb])

theorem nodup_uniqueFirst {α : Type} [DecidableEq α] (l : List α) : (uniqueFirst l).Nodup :=
  nodup_uniqueFirstAux l [] List.nodup_nil

/-- Value of a binary decision variable: 1 if the key is selected, else 0. -/
def selVal {α : Type} [DecidableEq α] (sel : List α) (a : α) : Nat :=
  if a ∈ sel then 1 else 0

theorem selVal_le_one {α : Type} [DecidableEq α] (sel : List α) (a : α) : selVal sel a ≤ 1 := by
  unfold selVal; split <;> simp

/-- Python `int()` applied to a rational: truncation toward zero. -/
def pyInt (q : ℚ) : ℤ := q.num.tdiv q.den

section F1

/-! ## F1_Optimizer/advanced_optimizer.py -/

/-- One row of the F1 DraftKings CSV as loaded by `_load_data`
(`ID`, `Name`, `TeamAbbrev`, `Roster Position`, `Salary`, `AvgPointsPerGame`,
`Game Info`). -/
structure F1Player where
  pid : Nat
  name : String
  team : String
  pos : String
  salary : Nat
  avgPoints : ℚ
  gameInfo : String
  deriving DecidableEq

/-- Captain scoring column: `df['CaptainPoints'] = df['AvgPointsPerGame'] * 1.5`. -/
def f1CaptainPoints (p : F1Player) : ℚ := p.avgPoints * (3 / 2)

/-- Position quotas `self.required_positions = {'CPT': 1, 'D': 4, 'CNSTR': 1}`. -/
def f1RequiredPositions : List (String × Nat) := [("CPT", 1), ("D", 4), ("CNSTR", 1)]

/-- Roster size `sum(self.required_positions.values())`. -/
def f1RosterSize : Nat := (f1RequiredPositions.map (·.2)).sum

/-- State stored by `AdvancedLineupOptimizer.__init__` (the F1 variant). -/
structure F1Config where
  pool : List F1Player
  salaryCap : Nat
  maxFromTeam : Nat
  minTeams : Nat
  maxPlayerAppearances : Nat
  teams : List String
  deriving DecidableEq

/-- Constructor `AdvancedLineupOptimizer.__init__`: stores the parameters and computes
`self.teams = self.players_df['TeamAbbrev'].unique().tolist()`.  No
validation of any kind is performed. -/
def f1Init (pool : List F1Player) (salaryCap maxFromTeam minTeams maxPlayerAppearances : Nat) :
    F1Config :=
  { pool := pool
    salaryCap := salaryCap
    maxFromTeam := maxFromTeam
    minTeams := minTeams
    maxPlayerAppearances := maxPlayerAppearances
    teams := uniqueFirst (pool.map (·.team)) }

/-- Per-call options of `AdvancedLineupOptimizer.optimize` (F1).
`stack_team=None` and the false-y empty string are both modelled as `none`. -/
structure F1Params where
  stackTeam : Option String
  stackCount : Nat
  minSalaryUsed : ℚ
  lineupDiversity : Nat
  maxAppearances : Option Nat
  deriving DecidableEq

/-- A solver assignment: the player ids whose binary variable is 1 and the
teams whose auxiliary team variable is 1 (membership semantics). -/
structure F1Sel where
  ids : List Nat
  activeTeams : List String
  deriving DecidableEq

/-- The data from which one iteration's `LpProblem` is built: the stored
configuration, the per-call options, `previous_lineups_players`, and the
`player_appearances` counts. -/
structure F1Model where
  cfg : F1Config
  params : F1Params
  prev : List (List Nat)
  app : Nat → Nat

/-- The keys of the `player_vars` dict: the distinct `ID` values in dataframe
order. -/
def idsUnique (pool : List F1Player) : List Nat := uniqueFirst (pool.map (·.pid))

/-- Salary expression: `Salary * player_vars[ID]` summed over all rows. -/
def f1SalarySum (pool : List F1Player) (s : F1Sel) : Nat :=
  ((pool.filter (fun p => decide (p.pid ∈ s.ids))).map (·.salary)).sum

/-- Sum of the variables of the rows carrying one roster position. -/
def f1PosCount (pool : List F1Player) (pos : String) (s : F1Sel) : Nat :=
  (pool.filter (fun p => decide (p.pos = pos))).countP (fun p => decide (p.pid ∈ s.ids))

/-- The driver rows of one team: `TeamAbbrev == team` and
`Roster Position != 'CNSTR'`. -/
def f1DriverRows (pool : List F1Player) (t : String) : List F1Player :=
  pool.filter (fun p => decide (p.team = t ∧ p.pos ≠ "CNSTR"))

/-- Sum of the variables of one team's driver rows. -/
def f1TeamDriverCount (pool : List F1Player) (t : String) (s : F1Sel) : Nat :=
  (f1DriverRows pool t).countP (fun p => decide (p.pid ∈ s.ids))

/-- The distinct names of the non-constructor rows
(`self.players_df[...!='CNSTR']['Name'].unique()`). -/
def f1DriverNames (pool : List F1Player) : List String :=
  uniqueFirst ((pool.filter (fun p => decide (p.pos ≠ "CNSTR"))).map (·.name))

/-- All row ids sharing one name (`self.players_df[Name == name]['ID']`). -/
def f1NameIds (pool : List F1Player) (nm : String) : List Nat :=
  (pool.filter (fun p => decide (p.name = nm))).map (·.pid)

/-- Satisfaction of the constraint set built by one iteration of the F1
`optimize` loop (constraints 1-11 in source order). -/
def F1Sat (m : F1Model) (s : F1Sel) : Prop :=
  -- 1: salary cap
  f1SalarySum m.cfg.pool s ≤ m.cfg.salaryCap ∧
  -- 2: minimum salary used
  (m.cfg.salaryCap : ℚ) * m.params.minSalaryUsed ≤ (f1SalarySum m.cfg.pool s : ℚ) ∧
  -- 3: position requirements
  (∀ pc ∈ f1RequiredPositions, f1PosCount m.cfg.pool pc.1 s = pc.2) ∧
  -- 4: total roster spots (sum over the per-id variables)
  (idsUnique m.cfg.pool).countP (fun i => decide (i ∈ s.ids)) = f1RosterSize ∧
  -- 5: team variable linkage (only for teams with driver rows)
  (∀ t ∈ m.cfg.teams, f1DriverRows m.cfg.pool t ≠ [] →
    ((∀ p ∈ f1DriverRows m.cfg.pool t, selVal s.ids p.pid ≤ selVal s.activeTeams t) ∧
      selVal s.activeTeams t ≤ f1TeamDriverCount m.cfg.pool t s)) ∧
  -- 6: maximum drivers from one team
  (∀ t ∈ m.cfg.teams, f1DriverRows m.cfg.pool t ≠ [] →
    f1TeamDriverCount m.cfg.pool t s ≤ m.cfg.maxFromTeam) ∧
  -- 7: minimum teams represented
  m.cfg.minTeams ≤ m.cfg.teams.countP (fun t => decide (t ∈ s.activeTeams)) ∧
  -- 8: team stacking, clamped to availability via `min`
  (∀ t ∈ m.params.stackTeam.toList, t ∈ m.cfg.teams →
    f1DriverRows m.cfg.pool t ≠ [] →
    min m.params.stackCount (f1DriverRows m.cfg.pool t).length ≤ f1TeamDriverCount m.cfg.pool t s) ∧
  -- 9: at most one version (CPT/D) of the same driver
  (∀ nm ∈ f1DriverNames m.cfg.pool, 1 < (f1NameIds m.cfg.pool nm).length →
    (f1NameIds m.cfg.pool nm).countP (fun i => decide (i ∈ s.ids)) ≤ 1) ∧
  -- 10: players at the appearance cap are forced to 0
  (∀ c ∈ m.params.maxAppearances.toList, ∀ i ∈ idsUnique m.cfg.pool, c ≤ m.app i → i ∉ s.ids) ∧
  -- 11: diversity cuts against every previous lineup
  (∀ pl ∈ m.prev,
    (pl.countP (fun i => decide (i ∈ s.ids)) : ℤ) ≤ (pl.length : ℤ) - (m.params.lineupDiversity : ℤ))

instance (m : F1Model) (s : F1Sel) : Decidable (F1Sat m s) := by
  unfold F1Sat; infer_instance

/-- Selected ids `selected_player_ids`: the dict keys whose variable evaluates to 1, in
key-insertion order. -/
def f1SelectedIds (pool : List F1Player) (s : F1Sel) : List Nat :=
  (idsUnique pool).filter (fun i => decide (i ∈ s.ids))

/-- The first dataframe row for each selected id
(`self.players_df[self.players_df['ID'] == player_id].iloc[0]`). -/
def f1SelectedRows (pool : List F1Player) (s : F1Sel) : List F1Player :=
  (f1SelectedIds pool s).filterMap (fun i => pool.find? (fun p => decide (p.pid = i)))

/-- Points credited to a selected row (captain rows score 1.5x). -/
def f1PlayerPoints (p : F1Player) : ℚ :=
  if p.pos = "CPT" then f1CaptainPoints p else p.avgPoints

/-- Display rank `position_order = {'CPT': 0, 'D': 1, 'CNSTR': 2}` (total function; every
selected row carries one of the three labels). -/
def f1PosOrder (pos : String) : Nat :=
  if pos = "CPT" then 0 else if pos = "D" then 1 else 2

/-- Display comparison for members of one lineup:
`key=(position_order[pos], -points)`, stable sort. -/
def f1MemberLe (a b : F1Player) : Bool :=
  decide (f1PosOrder a.pos < f1PosOrder b.pos ∨
    (f1PosOrder a.pos = f1PosOrder b.pos ∧ f1PlayerPoints b ≤ f1PlayerPoints a))

/-- One extracted lineup (`lineup_data`): member rows, reported totals and the
`teams_used` set (drivers only — constructors are skipped). -/
structure F1Lineup where
  players : List F1Player
  totalSalary : Nat
  totalPoints : ℚ
  teamsUsed : Finset String
  deriving DecidableEq

/-- Lineup extraction from a solved assignment (the body after a successful
solve, including the member display sort). -/
def f1Extract (pool : List F1Player) (s : F1Sel) : F1Lineup :=
  let rows := f1SelectedRows pool s
  { players := rows.mergeSort f1MemberLe
    totalSalary := (rows.map (·.salary)).sum
    totalPoints := (rows.map f1PlayerPoints).sum
    teamsUsed := ((rows.filter (fun p => decide (p.pos ≠ "CNSTR"))).map (·.team)).toFinset }

/-- Result of one `optimize` call: the lineups plus the number of
`prob.solve` invocations made. -/
structure F1Run where
  lineups : List F1Lineup
  solves : Nat

/-- Appearance update `player_appearances[player_id] += 1` for each selected id. -/
def f1AppStep (app : Nat → Nat) (sids : List Nat) : Nat → Nat :=
  fun i => if i ∈ sids then app i + 1 else app i

/-- The generation loop of F1 `optimize`: on a non-`Optimal` status the loop
breaks (for `i == 0` the early `return []` produces the same run state). -/
def f1Loop (cfg : F1Config) (pa : F1Params) (oracle : F1Model → Option F1Sel) :
    Nat → List (List Nat) → (Nat → Nat) → List F1Lineup → Nat → F1Run
  | 0, _, _, acc, calls => ⟨acc, calls⟩
  | n + 1, prev, app, acc, calls =>
    match oracle ⟨cfg, pa, prev, app⟩ with
    | none => ⟨acc, calls + 1⟩
    | some s =>
      f1Loop cfg pa oracle n (prev ++ [f1SelectedIds cfg.pool s])
        (f1AppStep app (f1SelectedIds cfg.pool s)) (acc ++ [f1Extract cfg.pool s]) (calls + 1)

/-- Final batch comparison: `lineups.sort(key=total_points, reverse=True)`. -/
def f1ByPoints (a b : F1Lineup) : Bool := decide (b.totalPoints ≤ a.totalPoints)

/-- Entry point `AdvancedLineupOptimizer.optimize` (F1): run the loop from empty state,
then sort the batch by total points descending. -/
def f1Optimize (cfg : F1Config) (numLineups : Nat) (pa : F1Params)
    (oracle : F1Model → Option F1Sel) : F1Run :=
  let r := f1Loop cfg pa oracle numLineups [] (fun _ => 0) [] 0
  ⟨r.lineups.mergeSort f1ByPoints, r.solves⟩

end F1

section MLB

/-! ## MLB_Optimizer/advanced_optimizer.py and MLB_Optimizer/optimizer.py -/

/-- One row of the MLB DraftKings CSV (same columns as the F1 file). -/
structure MLBPlayer where
  pid : Nat
  name : String
  team : String
  pos : String
  salary : Nat
  avgPoints : ℚ
  gameInfo : String
  deriving DecidableEq

/-- Position quotas `self.required_positions` of the MLB optimizers. -/
def mlbRequiredPositions : List (String × Nat) :=
  [("P", 2), ("C", 1), ("1B", 1), ("2B", 1), ("3B", 1), ("SS", 1), ("OF", 3)]

/-- Roster size `sum(self.required_positions.values())` = 10. -/
def mlbRosterSize : Nat := (mlbRequiredPositions.map (·.2)).sum

/-- State stored by the MLB `AdvancedLineupOptimizer.__init__` (the pool is
taken after the optional injured-list filtering). -/
structure MLBConfig where
  pool : List MLBPlayer
  salaryCap : Nat
  maxPlayersFromTeam : Nat
  minTeams : Nat
  teams : List String
  deriving DecidableEq

/-- The MLB `AdvancedLineupOptimizer.__init__`: stores the parameters and
computes `self.teams`; like the F1 variant it performs no validation. -/
def mlbInit (pool : List MLBPlayer) (salaryCap maxPlayersFromTeam minTeams : Nat) : MLBConfig :=
  { pool := pool
    salaryCap := salaryCap
    maxPlayersFromTeam := maxPlayersFromTeam
    minTeams := minTeams
    teams := uniqueFirst (pool.map (·.team)) }

/-- Per-call options of the MLB advanced `optimize`. -/
structure MLBParams where
  stackTeam : Option String
  stackCount : Nat
  minSalaryUsed : ℚ
  lineupDiversity : Nat
  deriving DecidableEq

/-- A solver assignment for the MLB advanced model. -/
structure MLBSel where
  ids : List Nat
  activeTeams : List String
  deriving DecidableEq

/-- The data from which one MLB advanced iteration's model is built. -/
structure MLBModel where
  cfg : MLBConfig
  params : MLBParams
  prev : List (List Nat)
  deriving DecidableEq

/-- The keys of the MLB `player_vars` dict. -/
def mlbIdsUnique (pool : List MLBPlayer) : List Nat := uniqueFirst (pool.map (·.pid))

/-- Salary expression: `Salary * player_vars[ID]` summed over all rows. -/
def mlbSalarySum (pool : List MLBPlayer) (ids : List Nat) : Nat :=
  ((pool.filter (fun p => decide (p.pid ∈ ids))).map (·.salary)).sum

/-- Sum of the variables of the rows carrying one roster position. -/
def mlbPosCount (pool : List MLBPlayer) (pos : String) (ids : List Nat) : Nat :=
  (pool.filter (fun p => decide (p.pos = pos))).countP (fun p => decide (p.pid ∈ ids))

/-- All rows of a team (pitchers included — no position filter in MLB). -/
def mlbTeamRows (pool : List MLBPlayer) (t : String) : List MLBPlayer :=
  pool.filter (fun p => decide (p.team = t))

/-- Sum of the variables of one team's rows. -/
def mlbTeamCount (pool : List MLBPlayer) (t : String) (ids : List Nat) : Nat :=
  (mlbTeamRows pool t).countP (fun p => decide (p.pid ∈ ids))

/-- Satisfaction of the constraint set built by one iteration of the MLB
advanced `optimize` loop (constraints 1-9 in source order).  Note that the
stacking constraint (8) uses the raw `stack_count`, with no clamping. -/
def MLBSat (m : MLBModel) (s : MLBSel) : Prop :=
  -- 1: salary cap
  mlbSalarySum m.cfg.pool s.ids ≤ m.cfg.salaryCap ∧
  -- 2: minimum salary used
  (m.cfg.salaryCap : ℚ) * m.params.minSalaryUsed ≤ (mlbSalarySum m.cfg.pool s.ids : ℚ) ∧
  -- 3: position requirements
  (∀ pc ∈ mlbRequiredPositions, mlbPosCount m.cfg.pool pc.1 s.ids = pc.2) ∧
  -- 4: exactly 10 players in total
  (mlbIdsUnique m.cfg.pool).countP (fun i => decide (i ∈ s.ids)) = mlbRosterSize ∧
  -- 5: team variable linkage (added for every team, no emptiness guard)
  (∀ t ∈ m.cfg.teams,
    ((∀ p ∈ mlbTeamRows m.cfg.pool t, selVal s.ids p.pid ≤ selVal s.activeTeams t) ∧
      selVal s.activeTeams t ≤ mlbTeamCount m.cfg.pool t s.ids)) ∧
  -- 6: maximum players from one team
  (∀ t ∈ m.cfg.teams, mlbTeamCount m.cfg.pool t s.ids ≤ m.cfg.maxPlayersFromTeam) ∧
  -- 7: minimum teams represented
  m.cfg.minTeams ≤ m.cfg.teams.countP (fun t => decide (t ∈ s.activeTeams)) ∧
  -- 8: team stacking with the unclamped requested count
  (∀ t ∈ m.params.stackTeam.toList, t ∈ m.cfg.teams →
    m.params.stackCount ≤ mlbTeamCount m.cfg.pool t s.ids) ∧
  -- 9: diversity cuts against every previous lineup
  (∀ pl ∈ m.prev,
    (pl.countP (fun i => decide (i ∈ s.ids)) : ℤ) ≤ (pl.length : ℤ) - (m.params.lineupDiversity : ℤ))

instance (m : MLBModel) (s : MLBSel) : Decidable (MLBSat m s) := by
  unfold MLBSat; infer_instance

/-- Selected ids `selected_player_ids` of an MLB solve. -/
def mlbSelectedIds (pool : List MLBPlayer) (ids : List Nat) : List Nat :=
  (mlbIdsUnique pool).filter (fun i => decide (i ∈ ids))

/-- The first dataframe row for each selected id. -/
def mlbSelectedRows (pool : List MLBPlayer) (ids : List Nat) : List MLBPlayer :=
  (mlbSelectedIds pool ids).filterMap (fun i => pool.find? (fun p => decide (p.pid = i)))

/-- Display rank `position_order = {'P':0,'C':1,'1B':2,'2B':3,'3B':4,'SS':5,'OF':6}`. -/
def mlbPosOrder (pos : String) : Nat :=
  if pos = "P" then 0 else if pos = "C" then 1 else if pos = "1B" then 2
  else if pos = "2B" then 3 else if pos = "3B" then 4 else if pos = "SS" then 5 else 6

/-- Member display comparison: `key=(position_order[pos], -avg_points)`. -/
def mlbMemberLe (a b : MLBPlayer) : Bool :=
  decide (mlbPosOrder a.pos < mlbPosOrder b.pos ∨
    (mlbPosOrder a.pos = mlbPosOrder b.pos ∧ b.avgPoints ≤ a.avgPoints))

/-- One extracted MLB lineup; `teams_used` collects the team of every member
(no position is exempt in MLB). -/
structure MLBLineup where
  players : List MLBPlayer
  totalSalary : Nat
  totalPoints : ℚ
  teamsUsed : Finset String
  deriving DecidableEq

/-- MLB lineup extraction from a solved assignment. -/
def mlbExtract (pool : List MLBPlayer) (ids : List Nat) : MLBLineup :=
  let rows := mlbSelectedRows pool ids
  { players := rows.mergeSort mlbMemberLe
    totalSalary := (rows.map (·.salary)).sum
    totalPoints := (rows.map (·.avgPoints)).sum
    teamsUsed := (rows.map (·.team)).toFinset }

/-- Result of one MLB `optimize` call (advanced or base). -/
structure MLBRun where
  lineups : List MLBLineup
  solves : Nat

/-- The MLB advanced generation loop: on a non-`Optimal` status the loop
breaks (`return []` for `i == 0` produces the same run state). -/
def mlbLoop (cfg : MLBConfig) (pa : MLBParams) (oracle : MLBModel → Option MLBSel) :
    Nat → List (List Nat) → List MLBLineup → Nat → MLBRun
  | 0, _, acc, calls => ⟨acc, calls⟩
  | n + 1, prev, acc, calls =>
    match oracle ⟨cfg, pa, prev⟩ with
    | none => ⟨acc, calls + 1⟩
    | some s =>
      mlbLoop cfg pa oracle n (prev ++ [mlbSelectedIds cfg.pool s.ids])
        (acc ++ [mlbExtract cfg.pool s.ids]) (calls + 1)

/-- Final batch comparison for the MLB optimizers. -/
def mlbByPoints (a b : MLBLineup) : Bool := decide (b.totalPoints ≤ a.totalPoints)

/-- The MLB `AdvancedLineupOptimizer.optimize`. -/
def mlbOptimize (cfg : MLBConfig) (numLineups : Nat) (pa : MLBParams)
    (oracle : MLBModel → Option MLBSel) : MLBRun :=
  let r := mlbLoop cfg pa oracle numLineups [] [] 0
  ⟨r.lineups.mergeSort mlbByPoints, r.solves⟩

/-- The data from which one iteration of the MLB base `LineupOptimizer`
builds its model: pool, salary cap and `previous_lineups_players`. -/
structure MLBBaseModel where
  pool : List MLBPlayer
  salaryCap : Nat
  prev : List (List Nat)
  deriving DecidableEq

/-- Constraint set of the MLB base `LineupOptimizer.optimize` (constraints
1-4 in source order; the diversity threshold is the fixed literal 3). -/
def MLBBaseSat (m : MLBBaseModel) (ids : List Nat) : Prop :=
  mlbSalarySum m.pool ids ≤ m.salaryCap ∧
  (∀ pc ∈ mlbRequiredPositions, mlbPosCount m.pool pc.1 ids = pc.2) ∧
  (mlbIdsUnique m.pool).countP (fun i => decide (i ∈ ids)) = mlbRosterSize ∧
  (∀ pl ∈ m.prev, (pl.countP (fun i => decide (i ∈ ids)) : ℤ) ≤ (pl.length : ℤ) - 3)

instance (m : MLBBaseModel) (ids : List Nat) : Decidable (MLBBaseSat m ids) := by
  unfold MLBBaseSat; infer_instance

/-- The MLB base generation loop: a non-`Optimal` status executes `continue`
— the loop moves on to the next iteration without breaking. -/
def mlbBaseLoop (pool : List MLBPlayer) (salaryCap : Nat)
    (oracle : MLBBaseModel → Option (List Nat)) :
    Nat → List (List Nat) → List MLBLineup → Nat → MLBRun
  | 0, _, acc, calls => ⟨acc, calls⟩
  | n + 1, prev, acc, calls =>
    match oracle ⟨pool, salaryCap, prev⟩ with
    | none => mlbBaseLoop pool salaryCap oracle n prev acc (calls + 1)
    | some ids =>
      mlbBaseLoop pool salaryCap oracle n (prev ++ [mlbSelectedIds pool ids])
        (acc ++ [mlbExtract pool ids]) (calls + 1)

/-- The MLB base `LineupOptimizer.optimize`. -/
def mlbBaseOptimize (pool : List MLBPlayer) (salaryCap : Nat) (numLineups : Nat)
    (oracle : MLBBaseModel → Option (List Nat)) : MLBRun :=
  let r := mlbBaseLoop pool salaryCap oracle numLineups [] [] 0
  ⟨r.lineups.mergeSort mlbByPoints, r.solves⟩

end MLB

section Showdown

/-! ## NBA-WNBA-ShowdownCaptain_optimizer/optimizer.py and
NBA-WNBA_Optimizer/advanced_optimizer.py -/

/-- One row of the Showdown CSV as loaded by `_load_player_data`; the row
number is its `PlayerIndex`, so players are addressed by position in the
list. -/
structure SPlayer where
  name : String
  team : String
  salary : Nat
  avgPoints : ℚ
  gameInfo : String
  deriving DecidableEq

/-- A Showdown solver assignment: the player indices whose captain variable
is 1 and those whose utility variable is 1 (membership semantics). -/
structure SSel where
  cpt : List Nat
  util : List Nat
  deriving DecidableEq

/-- The data from which one iteration of `WNBAShowdownOptimizer.optimize`
builds its model.  `num` is the requested `num_lineups` (used by the
exposure rule) and `prevNames` the `player_names` of the accepted lineups. -/
structure SModel where
  pool : List SPlayer
  salaryCap : Nat
  captainMultiplier : ℚ
  num : Nat
  playerDiversity : Nat
  exposure : Option (List (String × ℚ))
  prevNames : List (List String)
  deriving DecidableEq

/-- Salary expression `captain_vars[i] * Salary_i * 1.5 + utility_vars[i] * Salary_i` summed
over all players (the salary multiplier is the literal 1.5, independent of
`captain_multiplier`). -/
def sSalarySum (pool : List SPlayer) (s : SSel) : ℚ :=
  (pool.enum.map (fun e =>
    (selVal s.cpt e.1 : ℚ) * e.2.salary * (3 / 2) + (selVal s.util e.1 : ℚ) * e.2.salary)).sum

/-- The objective of the base Showdown model (a function of the pool and the
captain multiplier only): captain points carry the captain multiplier. -/
def sObjective (pool : List SPlayer) (mult : ℚ) (s : SSel) : ℚ :=
  (pool.enum.map (fun e =>
    (selVal s.cpt e.1 : ℚ) * e.2.avgPoints * mult +
      (selVal s.util e.1 : ℚ) * e.2.avgPoints)).sum

/-- Constraint set of one iteration of the base Showdown `optimize`
(constraints 1-6 in source order). -/
def SSat (m : SModel) (s : SSel) : Prop :=
  -- 1: exactly 1 captain
  (m.pool.enum.countP (fun e => decide (e.1 ∈ s.cpt))) = 1 ∧
  -- 2: exactly 5 utility players
  (m.pool.enum.countP (fun e => decide (e.1 ∈ s.util))) = 5 ∧
  -- 3: a player cannot be both captain and utility
  (∀ e ∈ m.pool.enum, selVal s.cpt e.1 + selVal s.util e.1 ≤ 1) ∧
  -- 4: salary cap (captain costs 1.5x)
  sSalarySum m.pool s ≤ (m.salaryCap : ℚ) ∧
  -- 5: diversity against every previous lineup (matched by player name)
  (∀ names ∈ m.prevNames,
    (((m.pool.enum.filter (fun e => decide (e.2.name ∈ names))).map
        (fun e => selVal s.cpt e.1 + selVal s.util e.1)).sum : ℤ) ≤
      6 - (m.playerDiversity : ℤ)) ∧
  -- 6: exposure constraints
  (∀ ec ∈ m.exposure.toList, ∀ pr ∈ ec, ∀ e ∈ m.pool.enum, e.2.name = pr.1 →
    (pr.2 = 0 → selVal s.cpt e.1 + selVal s.util e.1 = 0) ∧
    (pr.2 ≠ 0 →
      ⌊pr.2 * (m.num : ℚ)⌋ ≤ (m.prevNames.countP (fun ns => decide (pr.1 ∈ ns)) : ℤ) →
      selVal s.cpt e.1 + selVal s.util e.1 = 0))

instance (m : SModel) (s : SSel) : Decidable (SSat m s) := by
  unfold SSat; infer_instance

/-- One extracted Showdown lineup: captain indices (the extraction loop
ranges over all indices), utility indices, reported totals and the
accumulated `player_names` (captains first). -/
structure SLineup where
  capIdxs : List Nat
  utilIdxs : List Nat
  totalSalary : ℚ
  totalPoints : ℚ
  playerNames : List String
  deriving DecidableEq

/-- Showdown lineup extraction from a solved assignment. -/
def sExtract (pool : List SPlayer) (mult : ℚ) (s : SSel) : SLineup :=
  let caps := pool.enum.filter (fun e => decide (e.1 ∈ s.cpt))
  let utils := pool.enum.filter (fun e => decide (e.1 ∈ s.util))
  { capIdxs := caps.map (·.1)
    utilIdxs := utils.map (·.1)
    totalSalary := ((caps.map (fun e => (e.2.salary : ℚ) * (3 / 2))).sum) +
      ((utils.map (fun e => (e.2.salary : ℚ))).sum)
    totalPoints := ((caps.map (fun e => e.2.avgPoints * mult)).sum) +
      ((utils.map (fun e => e.2.avgPoints)).sum)
    playerNames := caps.map (·.2.name) ++ utils.map (·.2.name) }

/-- Result of one Showdown `optimize` call. -/
structure SRun where
  lineups : List SLineup
  solves : Nat

/-- The base Showdown generation loop: a failed solve only prints a message;
the loop does not break and no early return happens. -/
def sLoop (pool : List SPlayer) (salaryCap : Nat) (mult : ℚ) (num : Nat)
    (divy : Nat) (expo : Option (List (String × ℚ))) (oracle : SModel → Option SSel) :
    Nat → List (List String) → List SLineup → Nat → SRun
  | 0, _, acc, calls => ⟨acc, calls⟩
  | n + 1, prevNames, acc, calls =>
    match oracle ⟨pool, salaryCap, mult, num, divy, expo, prevNames⟩ with
    | none => sLoop pool salaryCap mult num divy expo oracle n prevNames acc (calls + 1)
    | some s =>
      sLoop pool salaryCap mult num divy expo oracle n
        (prevNames ++ [(sExtract pool mult s).playerNames])
        (acc ++ [sExtract pool mult s]) (calls + 1)

/-- Validation `WNBAShowdownOptimizer._validate_data`: at least 6 player rows. -/
def sValidateData (pool : List SPlayer) : Bool := decide (¬ pool.length < 6)

/-- Entry point `WNBAShowdownOptimizer.optimize`: validate, then run the loop.  The
returned batch is `all_lineups` in generation order — there is no final
sort. -/
def sOptimize (pool : List SPlayer) (salaryCap : Nat) (mult : ℚ) (num : Nat)
    (divy : Nat) (expo : Option (List (String × ℚ))) (oracle : SModel → Option SSel) : SRun :=
  if sValidateData pool then sLoop pool salaryCap mult num divy expo oracle num [] [] 0
  else ⟨[], 0⟩

/-! ### AdvancedWNBAShowdownOptimizer (NBA-WNBA_Optimizer/advanced_optimizer.py) -/

/-- Per-call options of `AdvancedWNBAShowdownOptimizer.optimize`. -/
structure NBAParams where
  playerDiversity : Nat
  exposure : Option (List (String × ℚ))
  stackTeam : Option String
  stackCount : Nat
  fadeTeams : Option (List String)
  randomness : ℚ
  minSalaryUsed : ℚ
  deriving DecidableEq

/-- The data from which one iteration of the advanced Showdown `optimize`
builds its model.  `proj` are the (possibly randomized) projections used by
the objective; the constraints read salaries and names from `pool`. -/
structure NBAModel where
  pool : List SPlayer
  salaryCap : Nat
  captainMultiplier : ℚ
  num : Nat
  params : NBAParams
  proj : List ℚ
  prevNames : List (List String)
  deriving DecidableEq

/-- Constraint set of one iteration of the advanced Showdown `optimize`
(constraints 1-8 in source order).  The minimum-salary threshold is
`int(self.salary_cap * min_salary_used)` — truncated to an integer — and
the stacking constraint uses the raw `stack_count`. -/
def NBASat (m : NBAModel) (s : SSel) : Prop :=
  -- 1: exactly 1 captain
  (m.pool.enum.countP (fun e => decide (e.1 ∈ s.cpt))) = 1 ∧
  -- 2: exactly 5 utility players
  (m.pool.enum.countP (fun e => decide (e.1 ∈ s.util))) = 5 ∧
  -- 3: a player cannot be both captain and utility
  (∀ e ∈ m.pool.enum, selVal s.cpt e.1 + selVal s.util e.1 ≤ 1) ∧
  -- 4: salary cap (captain costs 1.5x)
  sSalarySum m.pool s ≤ (m.salaryCap : ℚ) ∧
  -- 5: minimum salary used, with the threshold truncated by int()
  ((pyInt ((m.salaryCap : ℚ) * m.params.minSalaryUsed) : ℚ)) ≤ sSalarySum m.pool s ∧
  -- 6: team stacking (only when the team has rows; unclamped count)
  (∀ t ∈ m.params.stackTeam.toList,
    (m.pool.enum.filter (fun e => decide (e.2.team = t))) ≠ [] →
    m.params.stackCount ≤
      ((m.pool.enum.filter (fun e => decide (e.2.team = t))).map
        (fun e => selVal s.cpt e.1 + selVal s.util e.1)).sum) ∧
  -- 7: diversity against every previous lineup (matched by player name)
  (∀ names ∈ m.prevNames,
    (((m.pool.enum.filter (fun e => decide (e.2.name ∈ names))).map
        (fun e => selVal s.cpt e.1 + selVal s.util e.1)).sum : ℤ) ≤
      6 - (m.params.playerDiversity : ℤ)) ∧
  -- 8: exposure constraints
  (∀ ec ∈ m.params.exposure.toList, ∀ pr ∈ ec, ∀ e ∈ m.pool.enum, e.2.name = pr.1 →
    (pr.2 = 0 → selVal s.cpt e.1 + selVal s.util e.1 = 0) ∧
    (pr.2 ≠ 0 →
      ⌊pr.2 * (m.num : ℚ)⌋ ≤ (m.prevNames.countP (fun ns => decide (pr.1 ∈ ns)) : ℤ) →
      selVal s.cpt e.1 + selVal s.util e.1 = 0))

instance (m : NBAModel) (s : SSel) : Decidable (NBASat m s) := by
  unfold NBASat; infer_instance

/-- The fade step of the advanced `optimize`: for each faded team the stored
projections of that team's players are scaled by 0.8 **in place** —
`self.players.loc[mask, 'AvgPointsPerGame'] *= 0.8`.  An empty list is
false-y and skips the block, which the fold over `[]` reproduces. -/
def nbaFade (pool : List SPlayer) (fadeTeams : Option (List String)) : List SPlayer :=
  match fadeTeams with
  | none => pool
  | some ts =>
    ts.foldl (fun ps t =>
      ps.map (fun p => if p.team = t then { p with avgPoints := p.avgPoints * (4 / 5) } else p)) pool

/-- The per-iteration projection column: a fresh copy of the stored
projections, or, when `randomness > 0`, each projection scaled by
`1 + uniform(-randomness, randomness)`; the draws are supplied by the
`rand` oracle (iteration, player index). -/
def nbaProj (pool : List SPlayer) (randomness : ℚ) (rand : Nat → Nat → ℚ) (iter : Nat) :
    List ℚ :=
  if 0 < randomness then pool.enum.map (fun e => e.2.avgPoints * (1 + rand iter e.1))
  else pool.map (·.avgPoints)

/-- Result of one advanced Showdown `optimize` call; `playersAfter` is the
stored player pool when the call returns. -/
structure NBARun where
  lineups : List SLineup
  playersAfter : List SPlayer
  solves : Nat

/-- The advanced Showdown generation loop: like the base loop it never
breaks on a failed solve. -/
def nbaLoop (pool : List SPlayer) (salaryCap : Nat) (mult : ℚ) (num : Nat)
    (pa : NBAParams) (rand : Nat → Nat → ℚ) (oracle : NBAModel → Option SSel) :
    Nat → Nat → List (List String) → List SLineup → Nat → NBARun
  | 0, _, _, acc, calls => ⟨acc, pool, calls⟩
  | n + 1, iter, prevNames, acc, calls =>
    match oracle ⟨pool, salaryCap, mult, num, pa, nbaProj pool pa.randomness rand iter, prevNames⟩ with
    | none => nbaLoop pool salaryCap mult num pa rand oracle n (iter + 1) prevNames acc (calls + 1)
    | some s =>
      nbaLoop pool salaryCap mult num pa rand oracle n (iter + 1)
        (prevNames ++ [(sExtract pool mult s).playerNames])
        (acc ++ [sExtract pool mult s]) (calls + 1)

/-- Entry point `AdvancedWNBAShowdownOptimizer.optimize`: validate (against the stored
pool), apply the fade mutation to the stored pool, then loop.  No final
sort; the mutated pool remains in the object when the call returns. -/
def nbaOptimize (pool : List SPlayer) (salaryCap : Nat) (mult : ℚ) (num : Nat)
    (pa : NBAParams) (rand : Nat → Nat → ℚ) (oracle : NBAModel → Option SSel) : NBARun :=
  if sValidateData pool then
    nbaLoop (nbaFade pool pa.fadeTeams) salaryCap mult num pa rand oracle num 0 [] [] 0
  else ⟨[], pool, 0⟩

end Showdown

section Helpers

/-! ## General lemmas about the embedding's building blocks -/

theorem uniqueFirstAux_eq_append {α : Type} [DecidableEq α] (l : List α) :
    ∀ acc : List α, (∀ a ∈ l, a ∉ acc) → l.Nodup →
      l.foldl (fun acc a => if a ∈ acc then acc else acc ++ [a]) acc = acc ++ l := by
  induction l with
  | nil => intro acc _ _; simp
  | cons b t ih =>
    intro acc hdisj hnd
    simp only [List.foldl_cons]
    rw [if_neg (hdisj b (List.mem_cons_self b t))]
    rw [ih (acc ++ [b])]
    · simp
    · intro a ha
      rcases List.nodup_cons.mp hnd with ⟨hb, _⟩
      intro hmem
      rcases List.mem_append.mp hmem with h | h
      · exact hdisj a (List.mem_cons_of_mem _ ha) h
      · simp at h
        exact hb (h ▸ ha)
    · exact (List.nodup_cons.mp hnd).2

theorem uniqueFirst_eq_self {α : Type} [DecidableEq α] {l : List α} (h : l.Nodup) :
    uniqueFirst l = l := by
  unfold uniqueFirst
  rw [uniqueFirstAux_eq_append l [] (by simp) h]
  simp

/-- Looking up each key of a list in a pool by `find?` and reading the key
back returns the original list, provided every key occurs in the pool. -/
theorem map_key_filterMap_find {α β : Type} [DecidableEq β] (key : α → β) (pool : List α) :
    ∀ l : List β, (∀ i ∈ l, ∃ p ∈ pool, key p = i) →
      ((l.filterMap (fun i => pool.find? (fun p => decide (key p = i)))).map key) = l := by
  intro l
  induction l with
  | nil => intro _; simp
  | cons i t ih =>
    intro h
    obtain ⟨p, hp, hkey⟩ := h i (List.mem_cons_self i t)
    have hsome : (pool.find? (fun p => decide (key p = i))).isSome := by
      rw [List.find?_isSome]
      exact ⟨p, hp, by simp [hkey]⟩
    obtain ⟨q, hq⟩ := Option.isSome_iff_exists.mp hsome
    have hqkey : key q = i := by
      have := List.find?_some hq
      simpa using this
    simp only [List.filterMap_cons, hq, List.map_cons, hqkey]
    rw [ih (fun j hj => h j (List.mem_cons_of_mem _ hj))]

/-- With duplicate-free keys, selecting the keys in `sel` and resolving each
back to its first pool row is plain row filtering. -/
theorem filterMap_find_eq_filter {α β : Type} [DecidableEq β] (key : α → β) :
    ∀ pool : List α, (pool.map key).Nodup → ∀ sel : List β,
      ((pool.map key).filter (fun i => decide (i ∈ sel))).filterMap
          (fun i => pool.find? (fun p => decide (key p = i))) =
        pool.filter (fun p => decide (key p ∈ sel)) := by
  intro pool
  induction pool with
  | nil => intro _ sel; simp
  | cons p rest ih =>
    intro hnd sel
    have hnotin : key p ∉ rest.map key := (List.nodup_cons.mp (by simpa using hnd)).1
    have hndrest : (rest.map key).Nodup := (List.nodup_cons.mp (by simpa using hnd)).2
    have hcongr :
        ∀ l : List β, (∀ i ∈ l, i ∈ rest.map key) →
          l.filterMap (fun i => (p :: rest).find? (fun q => decide (key q = i))) =
            l.filterMap (fun i => rest.find? (fun q => decide (key q = i))) := by
      intro l
      induction l with
      | nil => intro _; simp
      | cons j u ihl =>
        intro hmem
        have hj : j ∈ rest.map key := hmem j (List.mem_cons_self j u)
        have hne : key p ≠ j := fun he => hnotin (he ▸ hj)
        simp only [List.filterMap_cons, List.find?_cons]
        have : (decide (key p = j)) = false := by simp [hne]
        rw [this]
        have hrec := ihl (fun x hx => hmem x (List.mem_cons_of_mem _ hx))
        cases hfind : rest.find? (fun q => decide (key q = j)) with
        | none => simpa [hfind] using hrec
        | some w => simpa [hfind] using hrec
    have hsub : ∀ i ∈ (rest.map key).filter (fun i => decide (i ∈ sel)), i ∈ rest.map key :=
      fun i hi => List.mem_of_mem_filter hi
    by_cases hmem : key p ∈ sel
    · have h1 : ((p :: rest).map key).filter (fun i => decide (i ∈ sel)) =
          key p :: (rest.map key).filter (fun i => decide (i ∈ sel)) := by
        simp [hmem]
      have h2 : (p :: rest).find? (fun q => decide (key q = key p)) = some p := by
        simp [List.find?_cons]
      rw [h1]
      simp only [List.filterMap_cons, h2]
      rw [hcongr _ hsub, ih hndrest sel]
      simp [hmem]
    · have h1 : ((p :: rest).map key).filter (fun i => decide (i ∈ sel)) =
          (rest.map key).filter (fun i => decide (i ∈ sel)) := by
        simp [hmem]
      rw [h1, hcongr _ hsub, ih hndrest sel]
      simp [hmem]

/-- The members of a `toFinset` satisfying a predicate are no more numerous
than the matching list entries. -/
theorem card_toFinset_filter_le_countP {α : Type} [DecidableEq α] (l : List α) (p : α → Bool) :
    (l.toFinset.filter (fun i => p i)).card ≤ l.countP p := by
  induction l with
  | nil => simp
  | cons a t ih =>
    simp only [List.toFinset_cons, List.countP_cons]
    rw [Finset.filter_insert]
    by_cases hp : p a
    · rw [if_pos (by simpa using hp)]
      calc (insert a (t.toFinset.filter (fun i => p i))).card
          ≤ (t.toFinset.filter (fun i => p i)).card + 1 := Finset.card_insert_le _ _
        _ ≤ t.countP p + 1 := by omega
        _ = t.countP p + (if p a = true then 1 else 0) := by simp [hp]
    · rw [if_neg (by simpa using hp)]
      calc (t.toFinset.filter (fun i => p i)).card ≤ t.countP p := ih
        _ ≤ t.countP p + (if p a = true then 1 else 0) := by omega

/-- A binary-variable sum dominates the count of entries selected either
way. -/
theorem countP_or_le_sum_selVal {α : Type} (cpt util : List Nat) :
    ∀ l : List (Nat × α),
      l.countP (fun e => decide (e.1 ∈ cpt ∨ e.1 ∈ util)) ≤
        (l.map (fun e => selVal cpt e.1 + selVal util e.1)).sum := by
  intro l
  induction l with
  | nil => simp
  | cons e t ih =>
    simp only [List.countP_cons, List.map_cons, List.sum_cons]
    by_cases h : e.1 ∈ cpt ∨ e.1 ∈ util
    · have h1 : 1 ≤ selVal cpt e.1 + selVal util e.1 := by
        unfold selVal
        rcases h with h | h <;> simp [h]
      have h2 : (decide (e.1 ∈ cpt ∨ e.1 ∈ util)) = true := decide_eq_true h
      rw [h2]
      simp only [if_pos]
      omega
    · have h2 : (decide (e.1 ∈ cpt ∨ e.1 ∈ util)) = false := decide_eq_false h
      rw [h2]
      simp only [Bool.false_eq_true, if_false]
      omega

/-- Turning binary coefficients into filtering, for rational-valued sums. -/
theorem sum_selVal_smul {α : Type} (sel : List Nat) (f : Nat × α → ℚ) :
    ∀ l : List (Nat × α),
      (l.map (fun e => (selVal sel e.1 : ℚ) * f e)).sum =
        ((l.filter (fun e => decide (e.1 ∈ sel))).map f).sum := by
  intro l
  induction l with
  | nil => simp
  | cons e t ih =>
    simp only [List.map_cons, List.sum_cons, List.filter_cons]
    by_cases h : e.1 ∈ sel
    · have hv : ((selVal sel e.1 : Nat) : ℚ) = 1 := by simp [selVal, h]
      rw [hv, one_mul, if_pos (by simp [h]), List.map_cons, List.sum_cons, ih]
    · have hv : ((selVal sel e.1 : Nat) : ℚ) = 0 := by simp [selVal, h]
      rw [hv, zero_mul, if_neg (by simp [h]), zero_add, ih]

/-- Python `int()` of a non-negative rational is its floor. -/
theorem pyInt_eq_floor {q : ℚ} (h : 0 ≤ q) : pyInt q = ⌊q⌋ := by
  unfold pyInt
  rw [Rat.floor_def]
  exact Int.tdiv_eq_ediv (by exact_mod_cast Rat.num_nonneg.mpr h) (by positivity)

end Helpers

section F1Lemmas

theorem mem_f1SelectedIds {pool : List F1Player} {s : F1Sel} {i : Nat} :
    i ∈ f1SelectedIds pool s ↔ i ∈ idsUnique pool ∧ i ∈ s.ids := by
  unfold f1SelectedIds
  simp

theorem f1SelectedIds_nodup (pool : List F1Player) (s : F1Sel) :
    (f1SelectedIds pool s).Nodup :=
  (nodup_uniqueFirst _).filter _

theorem f1SelectedRows_map_pid (pool : List F1Player) (s : F1Sel) :
    (f1SelectedRows pool s).map (·.pid) = f1SelectedIds pool s := by
  unfold f1SelectedRows
  apply map_key_filterMap_find
  intro i hi
  have : i ∈ idsUnique pool := (mem_f1SelectedIds.mp hi).1
  rw [idsUnique, mem_uniqueFirst] at this
  simpa using this

theorem f1Extract_players_perm (pool : List F1Player) (s : F1Sel) :
    ((f1Extract pool s).players).Perm (f1SelectedRows pool s) :=
  List.mergeSort_perm _ _

theorem f1Extract_pid_perm (pool : List F1Player) (s : F1Sel) :
    (((f1Extract pool s).players).map (·.pid)).Perm (f1SelectedIds pool s) := by
  rw [← f1SelectedRows_map_pid pool s]
  exact (f1Extract_players_perm pool s).map _

theorem f1SelectedIds_length {m : F1Model} {s : F1Sel} (h : F1Sat m s) :
    (f1SelectedIds m.cfg.pool s).length = f1RosterSize := by
  unfold f1SelectedIds
  rw [← List.countP_eq_length_filter]
  exact h.2.2.2.1

theorem f1SelectedRows_eq_filter {pool : List F1Player} (hnd : (pool.map (·.pid)).Nodup)
    (s : F1Sel) :
    f1SelectedRows pool s = pool.filter (fun p => decide (p.pid ∈ s.ids)) := by
  unfold f1SelectedRows f1SelectedIds idsUnique
  rw [uniqueFirst_eq_self hnd]
  exact filterMap_find_eq_filter (·.pid) pool hnd s.ids

theorem f1Extract_totalSalary {pool : List F1Player} (hnd : (pool.map (·.pid)).Nodup)
    (s : F1Sel) : (f1Extract pool s).totalSalary = f1SalarySum pool s := by
  unfold f1Extract f1SalarySum
  simp only []
  rw [f1SelectedRows_eq_filter hnd]

/-- The id set of a lineup's members. -/
def f1IdsOf (L : F1Lineup) : Finset Nat := ((L.players).map (·.pid)).toFinset

theorem f1IdsOf_extract (pool : List F1Player) (s : F1Sel) :
    f1IdsOf (f1Extract pool s) = (f1SelectedIds pool s).toFinset := by
  unfold f1IdsOf
  exact List.toFinset_eq_of_perm _ _ (f1Extract_pid_perm pool s)

/-- Core of the diversity bound: the member overlap of an extracted lineup
with a previous id list is bounded by the diversity-cut left-hand side. -/
theorem card_inter_le_countP (pl : List Nat) (sids : List Nat) (ids : List Nat)
    (hsub : ∀ i ∈ sids, i ∈ ids) :
    ((pl.toFinset ∩ sids.toFinset).card) ≤ pl.countP (fun i => decide (i ∈ ids)) := by
  have hsubset : pl.toFinset ∩ sids.toFinset ⊆
      pl.toFinset.filter (fun i => decide (i ∈ ids)) := by
    intro i hi
    rcases Finset.mem_inter.mp hi with ⟨h1, h2⟩
    rw [Finset.mem_filter]
    exact ⟨h1, by simpa using hsub i (by simpa using h2)⟩
  calc (pl.toFinset ∩ sids.toFinset).card
      ≤ (pl.toFinset.filter (fun i => decide (i ∈ ids))).card := Finset.card_le_card hsubset
    _ ≤ pl.countP (fun i => decide (i ∈ ids)) := card_toFinset_filter_le_countP _ _

/-- Pairwise diversity relation claimed for one batch. -/
def f1DivOK (d : Nat) (a b : F1Lineup) : Prop :=
  ((f1IdsOf a ∩ f1IdsOf b).card : ℤ) ≤ (f1RosterSize : ℤ) - (d : ℤ)

theorem f1DivOK_symm {d : Nat} {a b : F1Lineup} (h : f1DivOK d a b) : f1DivOK d b a := by
  unfold f1DivOK at *
  rwa [Finset.inter_comm]

theorem f1Loop_pairwise (cfg : F1Config) (pa : F1Params) (oracle : F1Model → Option F1Sel)
    (hor : ∀ m s, oracle m = some s → F1Sat m s) :
    ∀ (n : Nat) (prev : List (List Nat)) (app : Nat → Nat) (acc : List F1Lineup) (calls : Nat),
      (∀ a ∈ acc, ∃ pl ∈ prev, pl.length = f1RosterSize ∧ f1IdsOf a = pl.toFinset) →
      List.Pairwise (f1DivOK pa.lineupDiversity) acc →
      List.Pairwise (f1DivOK pa.lineupDiversity)
        ((f1Loop cfg pa oracle n prev app acc calls).lineups) := by
  intro n
  induction n with
  | zero => intro prev app acc calls _ hpw; simpa [f1Loop] using hpw
  | succ n ih =>
    intro prev app acc calls hinv hpw
    cases horacle : oracle ⟨cfg, pa, prev, app⟩ with
    | none => simpa [f1Loop, horacle] using hpw
    | some s =>
      have hsat : F1Sat ⟨cfg, pa, prev, app⟩ s := hor _ _ horacle
      simp only [f1Loop, horacle]
      apply ih
      · intro a ha
        rcases List.mem_append.mp ha with h | h
        · obtain ⟨pl, hpl, hlen, hids⟩ := hinv a h
          exact ⟨pl, List.mem_append.mpr (Or.inl hpl), hlen, hids⟩
        · simp only [List.mem_singleton] at h
          subst h
          exact ⟨f1SelectedIds cfg.pool s, List.mem_append.mpr (Or.inr (by simp)),
            f1SelectedIds_length hsat, f1IdsOf_extract cfg.pool s⟩
      · rw [List.pairwise_append]
        refine ⟨hpw, by simp, ?_⟩
        intro a ha b hb
        simp only [List.mem_singleton] at hb
        subst hb
        obtain ⟨pl, hpl, hlen, hids⟩ := hinv a ha
        unfold f1DivOK
        rw [hids, f1IdsOf_extract cfg.pool s]
        have hcut := hsat.2.2.2.2.2.2.2.2.2.2 pl hpl
        have hbound := card_inter_le_countP pl (f1SelectedIds cfg.pool s) s.ids
          (fun i hi => (mem_f1SelectedIds.mp hi).2)
        rw [hlen] at hcut
        calc ((pl.toFinset ∩ (f1SelectedIds cfg.pool s).toFinset).card : ℤ)
            ≤ (pl.countP (fun i => decide (i ∈ s.ids)) : ℤ) := by exact_mod_cast hbound
          _ ≤ (f1RosterSize : ℤ) - (pa.lineupDiversity : ℤ) := hcut

theorem f1Loop_mem_of (cfg : F1Config) (pa : F1Params) (oracle : F1Model → Option F1Sel)
    (P : F1Lineup → Prop) (hor : ∀ m s, oracle m = some s → F1Sat m s)
    (hP : ∀ prev app s, F1Sat ⟨cfg, pa, prev, app⟩ s → P (f1Extract cfg.pool s)) :
    ∀ (n : Nat) (prev : List (List Nat)) (app : Nat → Nat) (acc : List F1Lineup) (calls : Nat),
      (∀ L ∈ acc, P L) → ∀ L ∈ (f1Loop cfg pa oracle n prev app acc calls).lineups, P L := by
  intro n
  induction n with
  | zero => intro prev app acc calls hacc L hL; simp only [f1Loop] at hL; exact hacc L hL
  | succ n ih =>
    intro prev app acc calls hacc L hL
    cases horacle : oracle ⟨cfg, pa, prev, app⟩ with
    | none => simp only [f1Loop, horacle] at hL; exact hacc L hL
    | some s =>
      simp only [f1Loop, horacle] at hL
      refine ih _ _ _ _ ?_ L hL
      intro L' hL'
      rcases List.mem_append.mp hL' with h | h
      · exact hacc L' h
      · simp only [List.mem_singleton] at h
        exact h ▸ hP prev app s (hor _ _ horacle)

theorem f1Loop_solves (cfg : F1Config) (pa : F1Params) (oracle : F1Model → Option F1Sel) :
    ∀ (n : Nat) (prev : List (List Nat)) (app : Nat → Nat) (acc : List F1Lineup) (calls : Nat),
      ∃ k, (f1Loop cfg pa oracle n prev app acc calls).lineups.length = acc.length + k ∧
        (f1Loop cfg pa oracle n prev app acc calls).solves = calls + min n (k + 1) := by
  intro n
  induction n with
  | zero => intro prev app acc calls; exact ⟨0, by simp [f1Loop]⟩
  | succ n ih =>
    intro prev app acc calls
    cases horacle : oracle ⟨cfg, pa, prev, app⟩ with
    | none =>
      refine ⟨0, by simp [f1Loop, horacle], ?_⟩
      simp only [f1Loop, horacle]
      omega
    | some s =>
      obtain ⟨k, hlen, hsol⟩ := ih (prev ++ [f1SelectedIds cfg.pool s])
        (f1AppStep app (f1SelectedIds cfg.pool s)) (acc ++ [f1Extract cfg.pool s]) (calls + 1)
      refine ⟨k + 1, ?_, ?_⟩
      · simp only [f1Loop, horacle]
        rw [hlen]
        simp
        omega
      · simp only [f1Loop, horacle]
        rw [hsol]
        omega

theorem f1Loop_exposure (cfg : F1Config) (pa : F1Params) (oracle : F1Model → Option F1Sel)
    (C : Nat) (hC : pa.maxAppearances = some C)
    (hor : ∀ m s, oracle m = some s → F1Sat m s) :
    ∀ (n : Nat) (prev : List (List Nat)) (app : Nat → Nat) (acc : List F1Lineup) (calls : Nat),
      (∀ i, app i = acc.countP (fun L => decide (i ∈ (L.players).map (·.pid)))) →
      (∀ i, app i ≤ C) →
      ∀ i, (f1Loop cfg pa oracle n prev app acc calls).lineups.countP
        (fun L => decide (i ∈ (L.players).map (·.pid))) ≤ C := by
  intro n
  induction n with
  | zero =>
    intro prev app acc calls hcount hle i
    simp only [f1Loop]
    rw [← hcount i]
    exact hle i
  | succ n ih =>
    intro prev app acc calls hcount hle i
    cases horacle : oracle ⟨cfg, pa, prev, app⟩ with
    | none =>
      simp only [f1Loop, horacle]
      rw [← hcount i]
      exact hle i
    | some s =>
      have hsat : F1Sat ⟨cfg, pa, prev, app⟩ s := hor _ _ horacle
      simp only [f1Loop, horacle]
      apply ih
      · intro j
        rw [List.countP_append]
        unfold f1AppStep
        have hmem : (j ∈ ((f1Extract cfg.pool s).players).map (·.pid)) ↔
            j ∈ f1SelectedIds cfg.pool s := (f1Extract_pid_perm cfg.pool s).mem_iff
        by_cases hj : j ∈ f1SelectedIds cfg.pool s
        · have hd : (decide (j ∈ ((f1Extract cfg.pool s).players).map (·.pid))) = true :=
            decide_eq_true (hmem.mpr hj)
          have h1 : List.countP (fun L => decide (j ∈ (L.players).map (·.pid)))
              [f1Extract cfg.pool s] = 1 := by
            rw [List.countP_cons, List.countP_nil, hd]
            simp
          rw [if_pos hj, hcount j, h1]
        · have hd : (decide (j ∈ ((f1Extract cfg.pool s).players).map (·.pid))) = false :=
            decide_eq_false (fun h => hj (hmem.mp h))
          have h1 : List.countP (fun L => decide (j ∈ (L.players).map (·.pid)))
              [f1Extract cfg.pool s] = 0 := by
            rw [List.countP_cons, List.countP_nil, hd]
            simp
          rw [if_neg hj, hcount j, h1]
          omega
      · intro j
        unfold f1AppStep
        by_cases hj : j ∈ f1SelectedIds cfg.pool s
        · rw [if_pos hj]
          have hja : j ∈ idsUnique cfg.pool := (mem_f1SelectedIds.mp hj).1
          have hjs : j ∈ s.ids := (mem_f1SelectedIds.mp hj).2
          have hlt : app j < C := by
            by_contra hge
            push_neg at hge
            exact (hsat.2.2.2.2.2.2.2.2.2.1 C (by simp [hC]) j hja hge) hjs
          omega
        · rw [if_neg hj]
          exact hle j

end F1Lemmas

section MLBLemmas

theorem mem_mlbSelectedIds {pool : List MLBPlayer} {ids : List Nat} {i : Nat} :
    i ∈ mlbSelectedIds pool ids ↔ i ∈ mlbIdsUnique pool ∧ i ∈ ids := by
  unfold mlbSelectedIds
  simp

theorem mlbSelectedRows_map_pid (pool : List MLBPlayer) (ids : List Nat) :
    (mlbSelectedRows pool ids).map (·.pid) = mlbSelectedIds pool ids := by
  unfold mlbSelectedRows
  apply map_key_filterMap_find
  intro i hi
  have : i ∈ mlbIdsUnique pool := (mem_mlbSelectedIds.mp hi).1
  rw [mlbIdsUnique, mem_uniqueFirst] at this
  simpa using this

theorem mlbExtract_pid_perm (pool : List MLBPlayer) (ids : List Nat) :
    (((mlbExtract pool ids).players).map (·.pid)).Perm (mlbSelectedIds pool ids) := by
  rw [← mlbSelectedRows_map_pid pool ids]
  exact (List.mergeSort_perm _ _).map _

theorem mlbSelectedIds_length {m : MLBModel} {s : MLBSel} (h : MLBSat m s) :
    (mlbSelectedIds m.cfg.pool s.ids).length = mlbRosterSize := by
  unfold mlbSelectedIds
  rw [← List.countP_eq_length_filter]
  exact h.2.2.2.1

theorem mlbSelectedRows_eq_filter {pool : List MLBPlayer} (hnd : (pool.map (·.pid)).Nodup)
    (ids : List Nat) :
    mlbSelectedRows pool ids = pool.filter (fun p => decide (p.pid ∈ ids)) := by
  unfold mlbSelectedRows mlbSelectedIds mlbIdsUnique
  rw [uniqueFirst_eq_self hnd]
  exact filterMap_find_eq_filter (·.pid) pool hnd ids

theorem mlbExtract_totalSalary {pool : List MLBPlayer} (hnd : (pool.map (·.pid)).Nodup)
    (ids : List Nat) : (mlbExtract pool ids).totalSalary = mlbSalarySum pool ids := by
  unfold mlbExtract mlbSalarySum
  simp only []
  rw [mlbSelectedRows_eq_filter hnd]

/-- The id set of an MLB lineup's members. -/
def mlbIdsOf (L : MLBLineup) : Finset Nat := ((L.players).map (·.pid)).toFinset

theorem mlbIdsOf_extract (pool : List MLBPlayer) (ids : List Nat) :
    mlbIdsOf (mlbExtract pool ids) = (mlbSelectedIds pool ids).toFinset := by
  unfold mlbIdsOf
  exact List.toFinset_eq_of_perm _ _ (mlbExtract_pid_perm pool ids)

/-- Pairwise diversity relation claimed for one MLB batch. -/
def mlbDivOK (d : Nat) (a b : MLBLineup) : Prop :=
  ((mlbIdsOf a ∩ mlbIdsOf b).card : ℤ) ≤ (mlbRosterSize : ℤ) - (d : ℤ)

theorem mlbDivOK_symm {d : Nat} {a b : MLBLineup} (h : mlbDivOK d a b) : mlbDivOK d b a := by
  unfold mlbDivOK at *
  rwa [Finset.inter_comm]

theorem mlbLoop_pairwise (cfg : MLBConfig) (pa : MLBParams) (oracle : MLBModel → Option MLBSel)
    (hor : ∀ m s, oracle m = some s → MLBSat m s) :
    ∀ (n : Nat) (prev : List (List Nat)) (acc : List MLBLineup) (calls : Nat),
      (∀ a ∈ acc, ∃ pl ∈ prev, pl.length = mlbRosterSize ∧ mlbIdsOf a = pl.toFinset) →
      List.Pairwise (mlbDivOK pa.lineupDiversity) acc →
      List.Pairwise (mlbDivOK pa.lineupDiversity)
        ((mlbLoop cfg pa oracle n prev acc calls).lineups) := by
  intro n
  induction n with
  | zero => intro prev acc calls _ hpw; simpa [mlbLoop] using hpw
  | succ n ih =>
    intro prev acc calls hinv hpw
    cases horacle : oracle ⟨cfg, pa, prev⟩ with
    | none => simpa [mlbLoop, horacle] using hpw
    | some s =>
      have hsat : MLBSat ⟨cfg, pa, prev⟩ s := hor _ _ horacle
      simp only [mlbLoop, horacle]
      apply ih
      · intro a ha
        rcases List.mem_append.mp ha with h | h
        · obtain ⟨pl, hpl, hlen, hids⟩ := hinv a h
          exact ⟨pl, List.mem_append.mpr (Or.inl hpl), hlen, hids⟩
        · simp only [List.mem_singleton] at h
          subst h
          exact ⟨mlbSelectedIds cfg.pool s.ids, List.mem_append.mpr (Or.inr (by simp)),
            mlbSelectedIds_length hsat, mlbIdsOf_extract cfg.pool s.ids⟩
      · rw [List.pairwise_append]
        refine ⟨hpw, by simp, ?_⟩
        intro a ha b hb
        simp only [List.mem_singleton] at hb
        subst hb
        obtain ⟨pl, hpl, hlen, hids⟩ := hinv a ha
        unfold mlbDivOK
        rw [hids, mlbIdsOf_extract cfg.pool s.ids]
        have hcut := hsat.2.2.2.2.2.2.2.2 pl hpl
        have hbound := card_inter_le_countP pl (mlbSelectedIds cfg.pool s.ids) s.ids
          (fun i hi => (mem_mlbSelectedIds.mp hi).2)
        rw [hlen] at hcut
        calc ((pl.toFinset ∩ (mlbSelectedIds cfg.pool s.ids).toFinset).card : ℤ)
            ≤ (pl.countP (fun i => decide (i ∈ s.ids)) : ℤ) := by exact_mod_cast hbound
          _ ≤ (mlbRosterSize : ℤ) - (pa.lineupDiversity : ℤ) := hcut

theorem mlbLoop_mem_of (cfg : MLBConfig) (pa : MLBParams) (oracle : MLBModel → Option MLBSel)
    (P : MLBLineup → Prop) (hor : ∀ m s, oracle m = some s → MLBSat m s)
    (hP : ∀ prev s, MLBSat ⟨cfg, pa, prev⟩ s → P (mlbExtract cfg.pool s.ids)) :
    ∀ (n : Nat) (prev : List (List Nat)) (acc : List MLBLineup) (calls : Nat),
      (∀ L ∈ acc, P L) → ∀ L ∈ (mlbLoop cfg pa oracle n prev acc calls).lineups, P L := by
  intro n
  induction n with
  | zero => intro prev acc calls hacc L hL; simp only [mlbLoop] at hL; exact hacc L hL
  | succ n ih =>
    intro prev acc calls hacc L hL
    cases horacle : oracle ⟨cfg, pa, prev⟩ with
    | none => simp only [mlbLoop, horacle] at hL; exact hacc L hL
    | some s =>
      simp only [mlbLoop, horacle] at hL
      refine ih _ _ _ ?_ L hL
      intro L' hL'
      rcases List.mem_append.mp hL' with h | h
      · exact hacc L' h
      · simp only [List.mem_singleton] at h
        exact h ▸ hP prev s (hor _ _ horacle)

theorem mlbLoop_solves (cfg : MLBConfig) (pa : MLBParams) (oracle : MLBModel → Option MLBSel) :
    ∀ (n : Nat) (prev : List (List Nat)) (acc : List MLBLineup) (calls : Nat),
      ∃ k, (mlbLoop cfg pa oracle n prev acc calls).lineups.length = acc.length + k ∧
        (mlbLoop cfg pa oracle n prev acc calls).solves = calls + min n (k + 1) := by
  intro n
  induction n with
  | zero => intro prev acc calls; exact ⟨0, by simp [mlbLoop]⟩
  | succ n ih =>
    intro prev acc calls
    cases horacle : oracle ⟨cfg, pa, prev⟩ with
    | none =>
      refine ⟨0, by simp [mlbLoop, horacle], ?_⟩
      simp only [mlbLoop, horacle]
      omega
    | some s =>
      obtain ⟨k, hlen, hsol⟩ := ih (prev ++ [mlbSelectedIds cfg.pool s.ids])
        (acc ++ [mlbExtract cfg.pool s.ids]) (calls + 1)
      refine ⟨k + 1, ?_, ?_⟩
      · simp only [mlbLoop, horacle]
        rw [hlen]
        simp
        omega
      · simp only [mlbLoop, horacle]
        rw [hsol]
        omega

theorem mlbBaseLoop_solves (pool : List MLBPlayer) (cap : Nat)
    (oracle : MLBBaseModel → Option (List Nat)) :
    ∀ (n : Nat) (prev : List (List Nat)) (acc : List MLBLineup) (calls : Nat),
      (mlbBaseLoop pool cap oracle n prev acc calls).solves = calls + n := by
  intro n
  induction n with
  | zero => intro prev acc calls; simp [mlbBaseLoop]
  | succ n ih =>
    intro prev acc calls
    cases horacle : oracle ⟨pool, cap, prev⟩ with
    | none =>
      simp only [mlbBaseLoop, horacle]
      rw [ih]
      omega
    | some ids =>
      simp only [mlbBaseLoop, horacle]
      rw [ih]
      omega

end MLBLemmas

section ShowdownLemmas

theorem sExtract_totalPoints (pool : List SPlayer) (mult : ℚ) (s : SSel) :
    (sExtract pool mult s).totalPoints = sObjective pool mult s := by
  unfold sExtract sObjective
  simp only [mul_assoc]
  rw [List.sum_map_add]
  simp only [sum_selVal_smul]

theorem sExtract_totalSalary (pool : List SPlayer) (mult : ℚ) (s : SSel) :
    (sExtract pool mult s).totalSalary = sSalarySum pool s := by
  unfold sExtract sSalarySum
  simp only [mul_assoc]
  rw [List.sum_map_add]
  simp only [sum_selVal_smul]

/-- Adding one more accepted lineup only adds constraints: a selection
feasible for the larger history is feasible for the smaller one. -/
theorem SSat_append {pool : List SPlayer} {cap : Nat} {mult : ℚ} {num divy : Nat}
    {expo : Option (List (String × ℚ))} {P : List (List String)} {q : List String} {s : SSel}
    (h : SSat ⟨pool, cap, mult, num, divy, expo, P ++ [q]⟩ s) :
    SSat ⟨pool, cap, mult, num, divy, expo, P⟩ s := by
  obtain ⟨h1, h2, h3, h4, h5, h6⟩ := h
  refine ⟨h1, h2, h3, h4, ?_, ?_⟩
  · intro names hn
    exact h5 names (List.mem_append.mpr (Or.inl hn))
  · intro ec hec pr hpr e he hname
    refine ⟨fun hz => (h6 ec hec pr hpr e he hname).1 hz, ?_⟩
    intro hnz hcond
    refine (h6 ec hec pr hpr e he hname).2 hnz ?_
    calc ⌊pr.2 * (num : ℚ)⌋ ≤ ((P.countP (fun ns => decide (pr.1 ∈ ns))) : ℤ) := hcond
      _ ≤ (((P ++ [q]).countP (fun ns => decide (pr.1 ∈ ns))) : ℤ) := by
          rw [List.countP_append]
          omega

/-- The member-index set of a Showdown lineup. -/
def sIdsOf (L : SLineup) : Finset Nat := (L.capIdxs ++ L.utilIdxs).toFinset

/-- Every member index of an extracted Showdown lineup is a valid pool index
that was selected, and its player's name is among the lineup's names. -/
theorem sExtract_member_spec (pool : List SPlayer) (mult : ℚ) (s : SSel) :
    ∀ i ∈ sIdsOf (sExtract pool mult s),
      (i ∈ s.cpt ∨ i ∈ s.util) ∧
        ∃ e ∈ pool.enum, e.1 = i ∧ e.2.name ∈ (sExtract pool mult s).playerNames := by
  intro i hi
  simp only [sIdsOf, sExtract, List.mem_toFinset, List.mem_append, List.mem_map] at hi
  rcases hi with ⟨e, he, hei⟩ | ⟨e, he, hei⟩
  · have hmem := List.mem_of_mem_filter he
    have hsel : e.1 ∈ s.cpt := by
      have := List.of_mem_filter he
      simpa using this
    refine ⟨Or.inl (hei ▸ hsel), e, hmem, hei, ?_⟩
    simp only [sExtract, List.mem_append, List.mem_map]
    exact Or.inl ⟨e, he, rfl⟩
  · have hmem := List.mem_of_mem_filter he
    have hsel : e.1 ∈ s.util := by
      have := List.of_mem_filter he
      simpa using this
    refine ⟨Or.inr (hei ▸ hsel), e, hmem, hei, ?_⟩
    simp only [sExtract, List.mem_append, List.mem_map]
    exact Or.inr ⟨e, he, rfl⟩

/-- Pairwise diversity relation claimed for one Showdown batch. -/
def sDivOK (d : Nat) (a b : SLineup) : Prop :=
  ((sIdsOf a ∩ sIdsOf b).card : ℤ) ≤ 6 - (d : ℤ)

theorem sDivOK_symm {d : Nat} {a b : SLineup} (h : sDivOK d a b) : sDivOK d b a := by
  unfold sDivOK at *
  rwa [Finset.inter_comm]

/-- The overlap of a previous lineup with a newly selected one is bounded by
the left-hand side of the corresponding diversity cut. -/
theorem sCard_inter_le (pool : List SPlayer) (mult : ℚ) (s : SSel) (a : SLineup)
    (names : List String)
    (hmem : ∀ i ∈ sIdsOf a, ∃ e ∈ pool.enum, e.1 = i ∧ e.2.name ∈ names) :
    ((sIdsOf a ∩ sIdsOf (sExtract pool mult s)).card : ℤ) ≤
      (((pool.enum.filter (fun e => decide (e.2.name ∈ names))).map
        (fun e => selVal s.cpt e.1 + selVal s.util e.1)).sum : ℤ) := by
  set S := (pool.enum.filter (fun e => decide (e.2.name ∈ names))).filter
    (fun e => decide (e.1 ∈ s.cpt ∨ e.1 ∈ s.util)) with hS
  have hsubset : sIdsOf a ∩ sIdsOf (sExtract pool mult s) ⊆ (S.map (·.1)).toFinset := by
    intro i hi
    rcases Finset.mem_inter.mp hi with ⟨ha, hb⟩
    obtain ⟨e, he, hei, hname⟩ := hmem i ha
    obtain ⟨hsel, _⟩ := sExtract_member_spec pool mult s i hb
    rw [List.mem_toFinset, List.mem_map]
    refine ⟨e, ?_, hei⟩
    rw [hS, List.mem_filter, List.mem_filter]
    exact ⟨⟨he, by simpa using hname⟩, by simpa using (hei ▸ hsel)⟩
  have h1 : (sIdsOf a ∩ sIdsOf (sExtract pool mult s)).card ≤ S.length := by
    calc (sIdsOf a ∩ sIdsOf (sExtract pool mult s)).card
        ≤ (S.map (·.1)).toFinset.card := Finset.card_le_card hsubset
      _ ≤ (S.map (·.1)).length := List.toFinset_card_le _
      _ = S.length := List.length_map _ _
  have h2 : S.length ≤ ((pool.enum.filter (fun e => decide (e.2.name ∈ names))).map
      (fun e => selVal s.cpt e.1 + selVal s.util e.1)).sum := by
    rw [hS, ← List.countP_eq_length_filter]
    exact countP_or_le_sum_selVal s.cpt s.util _
  exact_mod_cast le_trans h1 h2

theorem sLoop_pairwise (pool : List SPlayer) (cap : Nat) (mult : ℚ) (num divy : Nat)
    (expo : Option (List (String × ℚ))) (oracle : SModel → Option SSel)
    (hor : ∀ m s, oracle m = some s → SSat m s) :
    ∀ (n : Nat) (prevNames : List (List String)) (acc : List SLineup) (calls : Nat),
      (∀ a ∈ acc, ∃ names ∈ prevNames,
        ∀ i ∈ sIdsOf a, ∃ e ∈ pool.enum, e.1 = i ∧ e.2.name ∈ names) →
      List.Pairwise (sDivOK divy) acc →
      List.Pairwise (sDivOK divy)
        ((sLoop pool cap mult num divy expo oracle n prevNames acc calls).lineups) := by
  intro n
  induction n with
  | zero => intro prevNames acc calls _ hpw; simpa [sLoop] using hpw
  | succ n ih =>
    intro prevNames acc calls hinv hpw
    cases horacle : oracle ⟨pool, cap, mult, num, divy, expo, prevNames⟩ with
    | none =>
      simp only [sLoop, horacle]
      exact ih prevNames acc (calls + 1) hinv hpw
    | some s =>
      have hsat := hor _ _ horacle
      simp only [sLoop, horacle]
      apply ih
      · intro a ha
        rcases List.mem_append.mp ha with h | h
        · obtain ⟨names, hn, hprop⟩ := hinv a h
          exact ⟨names, List.mem_append.mpr (Or.inl hn), hprop⟩
        · simp only [List.mem_singleton] at h
          subst h
          refine ⟨(sExtract pool mult s).playerNames, List.mem_append.mpr (Or.inr (by simp)), ?_⟩
          intro i hi
          exact (sExtract_member_spec pool mult s i hi).2
      · rw [List.pairwise_append]
        refine ⟨hpw, by simp, ?_⟩
        intro a ha b hb
        simp only [List.mem_singleton] at hb
        subst hb
        obtain ⟨names, hn, hprop⟩ := hinv a ha
        unfold sDivOK
        have hcut := hsat.2.2.2.2.1 names hn
        calc ((sIdsOf a ∩ sIdsOf (sExtract pool mult s)).card : ℤ)
            ≤ (((pool.enum.filter (fun e => decide (e.2.name ∈ names))).map
                (fun e => selVal s.cpt e.1 + selVal s.util e.1)).sum : ℤ) :=
              sCard_inter_le pool mult s a names hprop
          _ ≤ 6 - (divy : ℤ) := hcut

/-- Base Showdown sortedness: every accepted lineup scores at least as much
as any selection still feasible afterwards, provided the oracle returns
optimal solutions. -/
theorem sLoop_sorted (pool : List SPlayer) (cap : Nat) (mult : ℚ) (num divy : Nat)
    (expo : Option (List (String × ℚ))) (oracle : SModel → Option SSel)
    (hor : ∀ m s, oracle m = some s →
      SSat m s ∧ ∀ s', SSat m s' → sObjective m.pool m.captainMultiplier s' ≤
        sObjective m.pool m.captainMultiplier s) :
    ∀ (n : Nat) (prevNames : List (List String)) (acc : List SLineup) (calls : Nat),
      List.Pairwise (fun a b => b.totalPoints ≤ a.totalPoints) acc →
      (∀ s', SSat ⟨pool, cap, mult, num, divy, expo, prevNames⟩ s' →
        ∀ L ∈ acc, sObjective pool mult s' ≤ L.totalPoints) →
      List.Pairwise (fun a b => b.totalPoints ≤ a.totalPoints)
        ((sLoop pool cap mult num divy expo oracle n prevNames acc calls).lineups) := by
  intro n
  induction n with
  | zero => intro prevNames acc calls hpw _; simpa [sLoop] using hpw
  | succ n ih =>
    intro prevNames acc calls hpw hub
    cases horacle : oracle ⟨pool, cap, mult, num, divy, expo, prevNames⟩ with
    | none =>
      simp only [sLoop, horacle]
      exact ih prevNames acc (calls + 1) hpw hub
    | some s =>
      obtain ⟨hsat, hopt⟩ := hor _ _ horacle
      simp only [sLoop, horacle]
      apply ih
      · rw [List.pairwise_append]
        refine ⟨hpw, by simp, ?_⟩
        intro a ha b hb
        simp only [List.mem_singleton] at hb
        subst hb
        rw [sExtract_totalPoints]
        exact hub s hsat a ha
      · intro s' hs' L hL
        have hs'0 : SSat ⟨pool, cap, mult, num, divy, expo, prevNames⟩ s' := SSat_append hs'
        rcases List.mem_append.mp hL with h | h
        · exact hub s' hs'0 L h
        · simp only [List.mem_singleton] at h
          subst h
          rw [sExtract_totalPoints]
          exact hopt s' hs'0

theorem sLoop_solves (pool : List SPlayer) (cap : Nat) (mult : ℚ) (num divy : Nat)
    (expo : Option (List (String × ℚ))) (oracle : SModel → Option SSel) :
    ∀ (n : Nat) (prevNames : List (List String)) (acc : List SLineup) (calls : Nat),
      (sLoop pool cap mult num divy expo oracle n prevNames acc calls).solves = calls + n := by
  intro n
  induction n with
  | zero => intro prevNames acc calls; simp [sLoop]
  | succ n ih =>
    intro prevNames acc calls
    cases horacle : oracle ⟨pool, cap, mult, num, divy, expo, prevNames⟩ with
    | none =>
      simp only [sLoop, horacle]
      rw [ih]
      omega
    | some s =>
      simp only [sLoop, horacle]
      rw [ih]
      omega

theorem nbaLoop_mem_of (pool : List SPlayer) (cap : Nat) (mult : ℚ) (num : Nat)
    (pa : NBAParams) (rand : Nat → Nat → ℚ) (oracle : NBAModel → Option SSel)
    (P : SLineup → Prop) (hor : ∀ m s, oracle m = some s → NBASat m s)
    (hP : ∀ proj prevNames s, NBASat ⟨pool, cap, mult, num, pa, proj, prevNames⟩ s →
      P (sExtract pool mult s)) :
    ∀ (n iter : Nat) (prevNames : List (List String)) (acc : List SLineup) (calls : Nat),
      (∀ L ∈ acc, P L) →
      ∀ L ∈ (nbaLoop pool cap mult num pa rand oracle n iter prevNames acc calls).lineups, P L := by
  intro n
  induction n with
  | zero => intro iter prevNames acc calls hacc L hL; simp only [nbaLoop] at hL; exact hacc L hL
  | succ n ih =>
    intro iter prevNames acc calls hacc L hL
    cases horacle :
        oracle ⟨pool, cap, mult, num, pa, nbaProj pool pa.randomness rand iter, prevNames⟩ with
    | none =>
      simp only [nbaLoop, horacle] at hL
      exact ih _ _ _ _ hacc L hL
    | some s =>
      simp only [nbaLoop, horacle] at hL
      refine ih _ _ _ _ ?_ L hL
      intro L' hL'
      rcases List.mem_append.mp hL' with h | h
      · exact hacc L' h
      · simp only [List.mem_singleton] at h
        exact h ▸ hP _ prevNames s (hor _ _ horacle)

end ShowdownLemmas

section ConcreteData

/-! ## Concrete pools, selections and oracles for witnesses and
counterexamples.  The oracle of each concrete run is sound by construction:
it answers a model only with a selection it can check feasible. -/

/-- Six F1 rows: captain listing and two drivers on team A, two drivers on
team B, and a constructor whose team Z is not among the drivers' teams. -/
def wF1Pool : List F1Player :=
  [⟨1, "n1", "A", "CPT", 10000, 50, "g"⟩, ⟨2, "n2", "A", "D", 8000, 40, "g"⟩,
   ⟨3, "n3", "A", "D", 8000, 30, "g"⟩, ⟨4, "n4", "B", "D", 8000, 20, "g"⟩,
   ⟨5, "n5", "B", "D", 8000, 10, "g"⟩, ⟨6, "n6", "Z", "CNSTR", 6000, 5, "g"⟩]

def wF1Cfg : F1Config := f1Init wF1Pool 50000 3 2 1

def wF1Sel : F1Sel := ⟨[1, 2, 3, 4, 5, 6], ["A", "B"]⟩

def wF1Params : F1Params := ⟨none, 2, 19 / 20, 2, none⟩

/-- Same options with `max_player_appearances = 1`. -/
def wF1ParamsApp : F1Params := ⟨none, 2, 19 / 20, 2, some 1⟩

/-- Same options requesting a 3-player stack on team B, which has only two
driver rows. -/
def wF1ParamsStack : F1Params := ⟨some "B", 3, 19 / 20, 2, none⟩

def wF1Oracle : F1Model → Option F1Sel :=
  fun m => if F1Sat m wF1Sel then some wF1Sel else none

theorem wF1Oracle_sound : ∀ m s, wF1Oracle m = some s → F1Sat m s := by
  intro m s h
  unfold wF1Oracle at h
  split at h
  · cases h; assumption
  · cases h

theorem wF1Sat0 : F1Sat ⟨wF1Cfg, wF1Params, [], fun _ => 0⟩ wF1Sel := by
  refine ⟨by decide, ?_, by decide, by decide, by decide, by decide, by decide, by decide,
    by decide, by decide, by decide⟩
  have h : f1SalarySum wF1Cfg.pool wF1Sel = 48000 := by decide
  rw [h]
  show ((50000 : Nat) : ℚ) * (19 / 20) ≤ ((48000 : Nat) : ℚ)
  norm_num

theorem wF1Run1 : f1Optimize wF1Cfg 1 wF1Params wF1Oracle =
    ⟨[f1Extract wF1Cfg.pool wF1Sel], 1⟩ := by
  have h0 : wF1Oracle ⟨wF1Cfg, wF1Params, [], fun _ => 0⟩ = some wF1Sel := by
    unfold wF1Oracle
    rw [if_pos wF1Sat0]
  simp [f1Optimize, f1Loop, h0, List.mergeSort_singleton]

theorem wF1SatApp0 : F1Sat ⟨wF1Cfg, wF1ParamsApp, [], fun _ => 0⟩ wF1Sel := by
  refine ⟨by decide, ?_, by decide, by decide, by decide, by decide, by decide, by decide,
    by decide, by decide, by decide⟩
  have h : f1SalarySum wF1Cfg.pool wF1Sel = 48000 := by decide
  rw [h]
  show ((50000 : Nat) : ℚ) * (19 / 20) ≤ ((48000 : Nat) : ℚ)
  norm_num

theorem wF1RunApp1 : f1Optimize wF1Cfg 1 wF1ParamsApp wF1Oracle =
    ⟨[f1Extract wF1Cfg.pool wF1Sel], 1⟩ := by
  have h0 : wF1Oracle ⟨wF1Cfg, wF1ParamsApp, [], fun _ => 0⟩ = some wF1Sel := by
    unfold wF1Oracle
    rw [if_pos wF1SatApp0]
  simp [f1Optimize, f1Loop, h0, List.mergeSort_singleton]

theorem wF1SatStack0 : F1Sat ⟨wF1Cfg, wF1ParamsStack, [], fun _ => 0⟩ wF1Sel := by
  refine ⟨by decide, ?_, by decide, by decide, by decide, by decide, by decide, by decide,
    by decide, by decide, by decide⟩
  have h : f1SalarySum wF1Cfg.pool wF1Sel = 48000 := by decide
  rw [h]
  show ((50000 : Nat) : ℚ) * (19 / 20) ≤ ((48000 : Nat) : ℚ)
  norm_num

theorem wF1RunStack1 : f1Optimize wF1Cfg 1 wF1ParamsStack wF1Oracle =
    ⟨[f1Extract wF1Cfg.pool wF1Sel], 1⟩ := by
  have h0 : wF1Oracle ⟨wF1Cfg, wF1ParamsStack, [], fun _ => 0⟩ = some wF1Sel := by
    unfold wF1Oracle
    rw [if_pos wF1SatStack0]
  simp [f1Optimize, f1Loop, h0, List.mergeSort_singleton]

/-- A single-team F1 pool: `min_teams = 2` exceeds its one distinct team. -/
def wF1PoolZ : List F1Player :=
  [⟨1, "m1", "A", "CPT", 10000, 50, "g"⟩, ⟨2, "m2", "A", "D", 8000, 40, "g"⟩]

def wF1CfgZ : F1Config := f1Init wF1PoolZ 50000 3 2 1

/-- Ten MLB rows covering the position quotas: nine on team A and one
outfielder on team B. -/
def wMLBPool : List MLBPlayer :=
  [⟨1, "b1", "A", "P", 1000, 9, "g"⟩, ⟨2, "b2", "A", "P", 1000, 8, "g"⟩,
   ⟨3, "b3", "A", "C", 1000, 7, "g"⟩, ⟨4, "b4", "A", "1B", 1000, 6, "g"⟩,
   ⟨5, "b5", "A", "2B", 1000, 5, "g"⟩, ⟨6, "b6", "A", "3B", 1000, 4, "g"⟩,
   ⟨7, "b7", "A", "SS", 1000, 3, "g"⟩, ⟨8, "b8", "A", "OF", 1000, 2, "g"⟩,
   ⟨9, "b9", "A", "OF", 1000, 1, "g"⟩, ⟨10, "b10", "B", "OF", 1000, 1, "g"⟩]

def wMLBCfg : MLBConfig := mlbInit wMLBPool 50000 9 2

def wMLBSel : MLBSel := ⟨[1, 2, 3, 4, 5, 6, 7, 8, 9, 10], ["A", "B"]⟩

/-- Stack request on team B for 2 players — but the pool holds only one. -/
def wMLBPa2 : MLBParams := ⟨some "B", 2, 0, 3⟩

/-- The same request with the count clamped to availability (1). -/
def wMLBPa1 : MLBParams := ⟨some "B", 1, 0, 3⟩

theorem wMLBSatPa1 : MLBSat ⟨wMLBCfg, wMLBPa1, []⟩ wMLBSel := by
  refine ⟨by decide, ?_, by decide, by decide, by decide, by decide, by decide, by decide,
    by decide⟩
  show ((50000 : Nat) : ℚ) * 0 ≤ ((mlbSalarySum wMLBCfg.pool wMLBSel.ids : Nat) : ℚ)
  simp

/-- The MLB base optimizer's ids and oracle for the `continue` run. -/
def wMLBBaseSel : List Nat := [1, 2, 3, 4, 5, 6, 7, 8, 9, 10]

def wMLBBaseOracle : MLBBaseModel → Option (List Nat) :=
  fun m => if MLBBaseSat m wMLBBaseSel then some wMLBBaseSel else none

theorem wMLBBaseSat0 : MLBBaseSat ⟨wMLBPool, 50000, []⟩ wMLBBaseSel := by decide

theorem wMLBBaseNot1 :
    ¬ MLBBaseSat ⟨wMLBPool, 50000, [mlbSelectedIds wMLBPool wMLBBaseSel]⟩ wMLBBaseSel := by
  decide

theorem wMLBBaseRun3 : mlbBaseOptimize wMLBPool 50000 3 wMLBBaseOracle =
    ⟨[mlbExtract wMLBPool wMLBBaseSel], 3⟩ := by
  have h0 : wMLBBaseOracle ⟨wMLBPool, 50000, []⟩ = some wMLBBaseSel := by
    unfold wMLBBaseOracle
    rw [if_pos wMLBBaseSat0]
  have h1 : wMLBBaseOracle ⟨wMLBPool, 50000, [mlbSelectedIds wMLBPool wMLBBaseSel]⟩ = none := by
    unfold wMLBBaseOracle
    rw [if_neg wMLBBaseNot1]
  simp [mlbBaseOptimize, mlbBaseLoop, h0, h1, List.mergeSort_singleton]

/-- Six Showdown rows for the base/advanced WNBA optimizers. -/
def wSPool : List SPlayer :=
  [⟨"s1", "T", 1111, 10, "g"⟩, ⟨"s2", "U", 3000, 10, "g"⟩, ⟨"s3", "U", 3000, 10, "g"⟩,
   ⟨"s4", "U", 3000, 10, "g"⟩, ⟨"s5", "U", 3000, 10, "g"⟩, ⟨"s6", "U", 3000, 10, "g"⟩]

def wSSel : SSel := ⟨[0], [1, 2, 3, 4, 5]⟩

/-- Advanced Showdown options with `min_salary_used = 1/3`. -/
def wNBAPa : NBAParams := ⟨3, none, none, 3, none, 0, 1 / 3⟩

/-- Advanced Showdown options fading team T. -/
def wNBAPaFade : NBAParams := ⟨3, none, none, 3, some ["T"], 0, 19 / 20⟩

def wNBAOracle : NBAModel → Option SSel :=
  fun m => if NBASat m wSSel then some wSSel else none

theorem wNBAOracle_sound : ∀ m s, wNBAOracle m = some s → NBASat m s := by
  intro m s h
  unfold wNBAOracle at h
  split at h
  · cases h; assumption
  · cases h

theorem wSSalary : sSalarySum wSPool wSSel = 33333 / 2 := by
  simp [sSalarySum, wSPool, wSSel, List.enum, List.enumFrom, selVal]
  norm_num

theorem wNBASat0 : NBASat ⟨wSPool, 50000, 3 / 2, 1, wNBAPa,
    nbaProj wSPool wNBAPa.randomness (fun _ _ => 0) 0, []⟩ wSSel := by
  refine ⟨by decide, by decide, by decide, ?_, ?_, by decide, by decide, by decide⟩
  · rw [wSSalary]
    show (33333 : ℚ) / 2 ≤ ((50000 : Nat) : ℚ)
    norm_num
  · rw [wSSalary]
    have hfl : pyInt ((((50000 : Nat) : ℚ)) * wNBAPa.minSalaryUsed) = 16666 := by
      rw [pyInt_eq_floor (by norm_num [wNBAPa])]
      show ⌊(((50000 : Nat) : ℚ)) * (1 / 3)⌋ = 16666
      rw [Int.floor_eq_iff]
      constructor <;> norm_num
    rw [hfl]
    norm_num

theorem wNBARun1 : nbaOptimize wSPool 50000 (3 / 2) 1 wNBAPa (fun _ _ => 0) wNBAOracle =
    ⟨[sExtract wSPool (3 / 2) wSSel], wSPool, 1⟩ := by
  have h0 : wNBAOracle ⟨wSPool, 50000, 3 / 2, 1, wNBAPa,
      nbaProj wSPool wNBAPa.randomness (fun _ _ => 0) 0, []⟩ = some wSSel := by
    unfold wNBAOracle
    rw [if_pos wNBASat0]
  have hval : sValidateData wSPool = true := by decide
  have hfade : nbaFade wSPool wNBAPa.fadeTeams = wSPool := by
    simp [nbaFade, wNBAPa]
  simp [nbaOptimize, hval, hfade, nbaLoop, h0]

/-- A five-row pool — below the 6-player minimum. -/
def wSPool5 : List SPlayer :=
  [⟨"s1", "T", 1000, 10, "g"⟩, ⟨"s2", "U", 1000, 10, "g"⟩, ⟨"s3", "U", 1000, 10, "g"⟩,
   ⟨"s4", "U", 1000, 10, "g"⟩, ⟨"s5", "U", 1000, 10, "g"⟩]

/-- With an over-requested MLB stack, every selection violates the model:
the unclamped stacking constraint demands more rows than the team has. -/
theorem mlbStack_infeasible (m : MLBModel) (s : MLBSel) (t : String)
    (hst : m.params.stackTeam = some t) (ht : t ∈ m.cfg.teams)
    (hlt : (mlbTeamRows m.cfg.pool t).length < m.params.stackCount) : ¬ MLBSat m s := by
  intro h
  have h8 := h.2.2.2.2.2.2.2.1 t (by simp [hst]) ht
  have hle : mlbTeamCount m.cfg.pool t s.ids ≤ (mlbTeamRows m.cfg.pool t).length :=
    List.countP_le_length _
  omega

end ConcreteData

section Claims

/-- C1 (confirmed): for every batch returned by a multi-lineup optimize call
(F1 advanced with `lineup_diversity` d, MLB advanced with `lineup_diversity`
d, WNBA Showdown with `player_diversity` d) and every pair of lineups in the
batch, the two lineups share at most roster size − d players (roster size 6
for F1 and Showdown, 10 for MLB), provided the solver only returns
selections satisfying the model it is given. -/
theorem c1_batch_diversity :
    (∀ (cfg : F1Config) (n : Nat) (pa : F1Params) (oracle : F1Model → Option F1Sel),
      (∀ m s, oracle m = some s → F1Sat m s) →
      List.Pairwise (f1DivOK pa.lineupDiversity) ((f1Optimize cfg n pa oracle).lineups)) ∧
    (∀ (cfg : MLBConfig) (n : Nat) (pa : MLBParams) (oracle : MLBModel → Option MLBSel),
      (∀ m s, oracle m = some s → MLBSat m s) →
      List.Pairwise (mlbDivOK pa.lineupDiversity) ((mlbOptimize cfg n pa oracle).lineups)) ∧
    (∀ (pool : List SPlayer) (cap : Nat) (mult : ℚ) (num divy : Nat)
      (expo : Option (List (String × ℚ))) (oracle : SModel → Option SSel),
      (∀ m s, oracle m = some s → SSat m s) →
      List.Pairwise (sDivOK divy) ((sOptimize pool cap mult num divy expo oracle).lineups)) := by
  refine ⟨?_, ?_, ?_⟩
  · intro cfg n pa oracle hor
    unfold f1Optimize
    simp only []
    rw [List.Perm.pairwise_iff (fun h => f1DivOK_symm h) (List.mergeSort_perm _ f1ByPoints)]
    exact f1Loop_pairwise cfg pa oracle hor n [] (fun _ => 0) [] 0 (by simp) (by simp)
  · intro cfg n pa oracle hor
    unfold mlbOptimize
    simp only []
    rw [List.Perm.pairwise_iff (fun h => mlbDivOK_symm h) (List.mergeSort_perm _ mlbByPoints)]
    exact mlbLoop_pairwise cfg pa oracle hor n [] [] 0 (by simp) (by simp)
  · intro pool cap mult num divy expo oracle hor
    by_cases hv : sValidateData pool
    · unfold sOptimize
      rw [if_pos hv]
      exact sLoop_pairwise pool cap mult num divy expo oracle hor num [] [] 0 (by simp) (by simp)
    · unfold sOptimize
      rw [if_neg hv]
      simp

/-- Witness for C1 at concrete inputs: an F1 run whose oracle actually
returns a feasible lineup, plus MLB and Showdown runs. -/
theorem c1_batch_diversity_witness :
    List.Pairwise (f1DivOK 2) ((f1Optimize wF1Cfg 1 wF1Params wF1Oracle).lineups) ∧
    List.Pairwise (mlbDivOK 3) ((mlbOptimize wMLBCfg 2 wMLBPa1 (fun _ => none)).lineups) ∧
    List.Pairwise (sDivOK 3)
      ((sOptimize wSPool 50000 (3 / 2) 2 3 none (fun _ => none)).lineups) :=
  ⟨c1_batch_diversity.1 wF1Cfg 1 wF1Params wF1Oracle wF1Oracle_sound,
   c1_batch_diversity.2.1 wMLBCfg 2 wMLBPa1 (fun _ => none) (fun _ _ h => by cases h),
   c1_batch_diversity.2.2 wSPool 50000 (3 / 2) 2 3 none (fun _ => none) (fun _ _ h => by cases h)⟩

/-- C2 counterexample: an advanced WNBA Showdown run returns a lineup whose
reported total salary (16666.5) is at least the model's truncated threshold
`int(50000 * (1/3)) = 16666` but strictly below `50000 * (1/3)` — so "total
salary ≥ cap × min_salary_used" fails as stated. -/
theorem c2_min_salary_counterexample :
    (nbaOptimize wSPool 50000 (3 / 2) 1 wNBAPa (fun _ _ => 0) wNBAOracle).lineups =
      [sExtract wSPool (3 / 2) wSSel] ∧
    (sExtract wSPool (3 / 2) wSSel).totalSalary = 33333 / 2 ∧
    ¬ (((50000 : Nat) : ℚ) * wNBAPa.minSalaryUsed ≤ (33333 / 2 : ℚ)) := by
  refine ⟨by rw [wNBARun1], ?_, ?_⟩
  · rw [sExtract_totalSalary, wSSalary]
  · show ¬ (((50000 : Nat) : ℚ) * (1 / 3) ≤ (33333 / 2 : ℚ))
    norm_num

/-- C2 (amended): every returned lineup's reported total salary is at most
the cap, and at least `cap × min_salary_used` in the F1 variant but only at
least the truncated threshold `int(cap × min_salary_used)` in the advanced
Showdown variant; role costs (1.5x for the Showdown captain) enter the
model's salary constraint and the reported total identically. -/
theorem c2_salary_bounds_amended :
    (∀ (cfg : F1Config) (n : Nat) (pa : F1Params) (oracle : F1Model → Option F1Sel),
      (cfg.pool.map (·.pid)).Nodup →
      (∀ m s, oracle m = some s → F1Sat m s) →
      ∀ L ∈ (f1Optimize cfg n pa oracle).lineups,
        L.totalSalary ≤ cfg.salaryCap ∧
        (cfg.salaryCap : ℚ) * pa.minSalaryUsed ≤ (L.totalSalary : ℚ)) ∧
    (∀ (pool : List SPlayer) (cap : Nat) (mult : ℚ) (num : Nat) (pa : NBAParams)
      (rand : Nat → Nat → ℚ) (oracle : NBAModel → Option SSel),
      (∀ m s, oracle m = some s → NBASat m s) →
      ∀ L ∈ (nbaOptimize pool cap mult num pa rand oracle).lineups,
        L.totalSalary ≤ (cap : ℚ) ∧
        ((pyInt ((cap : ℚ) * pa.minSalaryUsed)) : ℚ) ≤ L.totalSalary) ∧
    (∀ (pool : List SPlayer) (mult : ℚ) (s : SSel),
      (sExtract pool mult s).totalSalary = sSalarySum pool s) := by
  refine ⟨?_, ?_, fun pool mult s => sExtract_totalSalary pool mult s⟩
  · intro cfg n pa oracle hnd hor L hL
    have hL' : L ∈ (f1Loop cfg pa oracle n [] (fun _ => 0) [] 0).lineups := by
      have hperm := List.mergeSort_perm
        ((f1Loop cfg pa oracle n [] (fun _ => 0) [] 0).lineups) f1ByPoints
      exact hperm.mem_iff.mp hL
    refine f1Loop_mem_of cfg pa oracle
      (fun L => L.totalSalary ≤ cfg.salaryCap ∧
        (cfg.salaryCap : ℚ) * pa.minSalaryUsed ≤ (L.totalSalary : ℚ)) hor ?_ n [] (fun _ => 0)
      [] 0 (by simp) L hL'
    intro prev app s hsat
    constructor
    · rw [f1Extract_totalSalary hnd]
      exact hsat.1
    · rw [f1Extract_totalSalary hnd]
      exact hsat.2.1
  · intro pool cap mult num pa rand oracle hor L hL
    by_cases hv : sValidateData pool
    · unfold nbaOptimize at hL
      rw [if_pos hv] at hL
      refine nbaLoop_mem_of (nbaFade pool pa.fadeTeams) cap mult num pa rand oracle
        (fun L => L.totalSalary ≤ (cap : ℚ) ∧
          ((pyInt ((cap : ℚ) * pa.minSalaryUsed)) : ℚ) ≤ L.totalSalary) hor
        ?_ num 0 [] [] 0 (by simp) L hL
      intro proj prevNames s hsat
      constructor
      · rw [sExtract_totalSalary]
        exact hsat.2.2.2.1
      · rw [sExtract_totalSalary]
        exact hsat.2.2.2.2.1
    · unfold nbaOptimize at hL
      rw [if_neg hv] at hL
      simp at hL

/-- Witness for C2 at concrete inputs: the bounds hold for the lineup of a
concrete F1 run. -/
theorem c2_salary_bounds_amended_witness :
    (f1Extract wF1Cfg.pool wF1Sel).totalSalary ≤ wF1Cfg.salaryCap ∧
    (wF1Cfg.salaryCap : ℚ) * wF1Params.minSalaryUsed ≤
      ((f1Extract wF1Cfg.pool wF1Sel).totalSalary : ℚ) :=
  c2_salary_bounds_amended.1 wF1Cfg 1 wF1Params wF1Oracle (by decide) wF1Oracle_sound
    (f1Extract wF1Cfg.pool wF1Sel) (by rw [wF1Run1]; simp)

/-- C3 counterexample: for a concrete MLB pool with a single team-B row and
a stack request of 2, the selection meeting the claimed clamped requirement
(min(2, 1) = 1 team-B player) violates the model actually built, while the
same selection satisfies the model whose stack count is the clamped value —
the MLB stacking constraint is not clamped to pool availability. -/
theorem c3_stack_clamp_counterexample :
    ¬ MLBSat ⟨wMLBCfg, wMLBPa2, []⟩ wMLBSel ∧
    MLBSat ⟨wMLBCfg, wMLBPa1, []⟩ wMLBSel ∧
    min wMLBPa2.stackCount (mlbTeamRows wMLBCfg.pool "B").length = 1 := by
  refine ⟨?_, wMLBSatPa1, by decide⟩
  exact mlbStack_infeasible _ wMLBSel "B" rfl (by decide) (by decide)

/-- C3 (amended): the F1 stacking constraint is clamped with
`min(stack_count, availability)`, so an over-request does not by itself
force infeasibility there; the MLB advanced stacking constraint uses the
raw `stack_count`, so requesting more players than the team has makes every
model infeasible and generation returns no lineups. -/
theorem c3_stacking_amended :
    (∀ (m : F1Model) (s : F1Sel) (t : String), F1Sat m s →
      m.params.stackTeam = some t → t ∈ m.cfg.teams → f1DriverRows m.cfg.pool t ≠ [] →
      min m.params.stackCount (f1DriverRows m.cfg.pool t).length ≤
        f1TeamDriverCount m.cfg.pool t s) ∧
    (∀ (m : MLBModel) (s : MLBSel) (t : String),
      m.params.stackTeam = some t → t ∈ m.cfg.teams →
      (mlbTeamRows m.cfg.pool t).length < m.params.stackCount → ¬ MLBSat m s) ∧
    (∀ (cfg : MLBConfig) (pa : MLBParams) (oracle : MLBModel → Option MLBSel) (n : Nat)
      (t : String), (∀ m s, oracle m = some s → MLBSat m s) →
      pa.stackTeam = some t → t ∈ cfg.teams →
      (mlbTeamRows cfg.pool t).length < pa.stackCount →
      (mlbOptimize cfg n pa oracle).lineups = []) := by
  refine ⟨?_, fun m s t hst ht hlt => mlbStack_infeasible m s t hst ht hlt, ?_⟩
  · intro m s t hsat hst ht hne
    exact hsat.2.2.2.2.2.2.2.1 t (by simp [hst]) ht hne
  · intro cfg pa oracle n t hor hst ht hlt
    have hnone : ∀ prev, oracle ⟨cfg, pa, prev⟩ = none := by
      intro prev
      cases h : oracle ⟨cfg, pa, prev⟩ with
      | none => rfl
      | some s => exact absurd (hor _ _ h) (mlbStack_infeasible ⟨cfg, pa, prev⟩ s t hst ht hlt)
    cases n with
    | zero => simp [mlbOptimize, mlbLoop]
    | succ k => simp [mlbOptimize, mlbLoop, hnone []]

/-- Witness for C3 at concrete inputs: the F1 run with the over-requested
stack still produces a lineup; the MLB run with the same kind of request
produces none. -/
theorem c3_stacking_amended_witness :
    min wF1ParamsStack.stackCount (f1DriverRows wF1Cfg.pool "B").length ≤
      f1TeamDriverCount wF1Cfg.pool "B" wF1Sel ∧
    (mlbOptimize wMLBCfg 3 wMLBPa2 (fun _ => none)).lineups = [] ∧
    (f1Optimize wF1Cfg 1 wF1ParamsStack wF1Oracle).lineups.length = 1 := by
  refine ⟨?_, ?_, by rw [wF1RunStack1]; rfl⟩
  · exact c3_stacking_amended.1 ⟨wF1Cfg, wF1ParamsStack, [], fun _ => 0⟩ wF1Sel "B"
      wF1SatStack0 rfl (by decide) (by decide)
  · exact c3_stacking_amended.2.2 wMLBCfg wMLBPa2 (fun _ => none) 3 "B"
      (fun _ _ h => by cases h) rfl (by decide) (by decide)

/-- C4 counterexample: an MLB base `optimize` run in which the second solve
(iteration i = 1) fails still performs a third solve — `continue` does not
stop the loop — so "no further model is built or solved" is false; the
accumulated single lineup is nevertheless returned. -/
theorem c4_infeasible_stop_counterexample :
    (mlbBaseOptimize wMLBPool 50000 3 wMLBBaseOracle).lineups.length = 1 ∧
    (mlbBaseOptimize wMLBPool 50000 3 wMLBBaseOracle).solves = 3 ∧
    wMLBBaseOracle ⟨wMLBPool, 50000, [mlbSelectedIds wMLBPool wMLBBaseSel]⟩ = none := by
  refine ⟨by rw [wMLBBaseRun3]; rfl, by rw [wMLBBaseRun3], ?_⟩
  unfold wMLBBaseOracle
  rw [if_neg wMLBBaseNot1]

/-- C4 (amended): the F1 and MLB advanced loops stop at the first
non-optimal solve — the number of solver calls is `min n (accepted + 1)` —
and return the accumulated lineups; the MLB base loop (`continue`) and the
Showdown loop (no break at all) keep solving every remaining iteration, so
they always make exactly `num_lineups` solver calls once validation
passes. -/
theorem c4_loop_termination_amended :
    (∀ (cfg : F1Config) (n : Nat) (pa : F1Params) (oracle : F1Model → Option F1Sel),
      (f1Optimize cfg n pa oracle).solves =
        min n ((f1Optimize cfg n pa oracle).lineups.length + 1)) ∧
    (∀ (cfg : MLBConfig) (n : Nat) (pa : MLBParams) (oracle : MLBModel → Option MLBSel),
      (mlbOptimize cfg n pa oracle).solves =
        min n ((mlbOptimize cfg n pa oracle).lineups.length + 1)) ∧
    (∀ (pool : List MLBPlayer) (cap n : Nat) (oracle : MLBBaseModel → Option (List Nat)),
      (mlbBaseOptimize pool cap n oracle).solves = n) ∧
    (∀ (pool : List SPlayer) (cap : Nat) (mult : ℚ) (num divy : Nat)
      (expo : Option (List (String × ℚ))) (oracle : SModel → Option SSel),
      sValidateData pool = true →
      (sOptimize pool cap mult num divy expo oracle).solves = num) := by
  refine ⟨?_, ?_, ?_, ?_⟩
  · intro cfg n pa oracle
    obtain ⟨k, hlen, hsol⟩ := f1Loop_solves cfg pa oracle n [] (fun _ => 0) [] 0
    unfold f1Optimize
    simp only []
    rw [hsol, (List.mergeSort_perm _ f1ByPoints).length_eq, hlen]
    simp only [List.length_nil]
    omega
  · intro cfg n pa oracle
    obtain ⟨k, hlen, hsol⟩ := mlbLoop_solves cfg pa oracle n [] [] 0
    unfold mlbOptimize
    simp only []
    rw [hsol, (List.mergeSort_perm _ mlbByPoints).length_eq, hlen]
    simp only [List.length_nil]
    omega
  · intro pool cap n oracle
    unfold mlbBaseOptimize
    simp only []
    rw [mlbBaseLoop_solves]
    omega
  · intro pool cap mult num divy expo oracle hv
    unfold sOptimize
    rw [if_pos hv, sLoop_solves]
    omega

/-- Witness for C4 at concrete inputs: the call-count law holds for a
concrete F1 run, and the MLB base / Showdown loops make all requested
solver calls. -/
theorem c4_loop_termination_amended_witness :
    (f1Optimize wF1Cfg 1 wF1Params wF1Oracle).solves =
      min 1 ((f1Optimize wF1Cfg 1 wF1Params wF1Oracle).lineups.length + 1) ∧
    (mlbBaseOptimize wMLBPool 50000 3 wMLBBaseOracle).solves = 3 ∧
    (sOptimize wSPool 50000 (3 / 2) 4 3 none (fun _ => none)).solves = 4 :=
  ⟨c4_loop_termination_amended.1 wF1Cfg 1 wF1Params wF1Oracle,
   c4_loop_termination_amended.2.2.1 wMLBPool 50000 3 wMLBBaseOracle,
   c4_loop_termination_amended.2.2.2 wSPool 50000 (3 / 2) 4 3 none (fun _ => none) (by decide)⟩

/-- C5 (confirmed): in an F1 advanced batch generated with
`max_player_appearances = C`, every player id appears in at most C of the
returned lineups; the exposure constraint zeroes the variables of capped
players and each accepted lineup raises a count by at most one. -/
theorem c5_exposure_cap :
    ∀ (cfg : F1Config) (n : Nat) (pa : F1Params) (oracle : F1Model → Option F1Sel) (C : Nat),
      pa.maxAppearances = some C → 1 ≤ C →
      (∀ m s, oracle m = some s → F1Sat m s) →
      ∀ i, (f1Optimize cfg n pa oracle).lineups.countP
        (fun L => decide (i ∈ (L.players).map (·.pid))) ≤ C := by
  intro cfg n pa oracle C hC _ hor i
  unfold f1Optimize
  simp only []
  rw [List.Perm.countP_eq _ (List.mergeSort_perm _ f1ByPoints)]
  exact f1Loop_exposure cfg pa oracle C hC hor n [] (fun _ => 0) [] 0 (by simp) (by simp) i

/-- Witness for C5 at concrete inputs: with the cap set to 1, player 3
appears at most once in the concrete batch (which holds one lineup). -/
theorem c5_exposure_cap_witness :
    (f1Optimize wF1Cfg 1 wF1ParamsApp wF1Oracle).lineups.countP
      (fun L => decide (3 ∈ (L.players).map (·.pid))) ≤ 1 ∧
    (f1Optimize wF1Cfg 1 wF1ParamsApp wF1Oracle).lineups.length = 1 :=
  ⟨c5_exposure_cap wF1Cfg 1 wF1ParamsApp wF1Oracle 1 rfl (le_refl 1) wF1Oracle_sound 3,
   by rw [wF1RunApp1]; rfl⟩

/-- C6 (confirmed): after every optimize run the returned batch is in
non-increasing order of total points — by the final sort in the F1 and MLB
advanced optimizers, and, in the Showdown optimizer (which performs no
final sort), because each iteration solves a more constrained model, so
optimal objective values cannot increase. -/
theorem c6_sorted_descending :
    (∀ (cfg : F1Config) (n : Nat) (pa : F1Params) (oracle : F1Model → Option F1Sel),
      List.Pairwise (fun a b : F1Lineup => b.totalPoints ≤ a.totalPoints)
        ((f1Optimize cfg n pa oracle).lineups)) ∧
    (∀ (cfg : MLBConfig) (n : Nat) (pa : MLBParams) (oracle : MLBModel → Option MLBSel),
      List.Pairwise (fun a b : MLBLineup => b.totalPoints ≤ a.totalPoints)
        ((mlbOptimize cfg n pa oracle).lineups)) ∧
    (∀ (pool : List SPlayer) (cap : Nat) (mult : ℚ) (num divy : Nat)
      (expo : Option (List (String × ℚ))) (oracle : SModel → Option SSel),
      (∀ m s, oracle m = some s → SSat m s ∧ ∀ s', SSat m s' →
        sObjective m.pool m.captainMultiplier s' ≤ sObjective m.pool m.captainMultiplier s) →
      List.Pairwise (fun a b : SLineup => b.totalPoints ≤ a.totalPoints)
        ((sOptimize pool cap mult num divy expo oracle).lineups)) := by
  refine ⟨?_, ?_, ?_⟩
  · intro cfg n pa oracle
    unfold f1Optimize
    simp only []
    have h := @List.sorted_mergeSort F1Lineup f1ByPoints
      (by
        intro a b c hab hbc
        simp only [f1ByPoints, decide_eq_true_eq] at *
        exact le_trans hbc hab)
      (by
        intro a b
        simp only [f1ByPoints, Bool.or_eq_true, decide_eq_true_eq]
        exact le_total _ _)
      ((f1Loop cfg pa oracle n [] (fun _ => 0) [] 0).lineups)
    exact h.imp (fun hab => by simpa [f1ByPoints, decide_eq_true_eq] using hab)
  · intro cfg n pa oracle
    unfold mlbOptimize
    simp only []
    have h := @List.sorted_mergeSort MLBLineup mlbByPoints
      (by
        intro a b c hab hbc
        simp only [mlbByPoints, decide_eq_true_eq] at *
        exact le_trans hbc hab)
      (by
        intro a b
        simp only [mlbByPoints, Bool.or_eq_true, decide_eq_true_eq]
        exact le_total _ _)
      ((mlbLoop cfg pa oracle n [] [] 0).lineups)
    exact h.imp (fun hab => by simpa [mlbByPoints, decide_eq_true_eq] using hab)
  · intro pool cap mult num divy expo oracle hor
    by_cases hv : sValidateData pool
    · unfold sOptimize
      rw [if_pos hv]
      exact sLoop_sorted pool cap mult num divy expo oracle hor num [] [] 0 (by simp)
        (by intro s' _ L hL; cases hL)
    · unfold sOptimize
      rw [if_neg hv]
      simp

/-- Witness for C6 at concrete inputs. -/
theorem c6_sorted_descending_witness :
    List.Pairwise (fun a b : F1Lineup => b.totalPoints ≤ a.totalPoints)
      ((f1Optimize wF1Cfg 1 wF1Params wF1Oracle).lineups) ∧
    List.Pairwise (fun a b : SLineup => b.totalPoints ≤ a.totalPoints)
      ((sOptimize wSPool 50000 (3 / 2) 2 3 none (fun _ => none)).lineups) :=
  ⟨c6_sorted_descending.1 wF1Cfg 1 wF1Params wF1Oracle,
   c6_sorted_descending.2.2 wSPool 50000 (3 / 2) 2 3 none (fun _ => none)
     (fun _ _ h => by cases h)⟩

/-- C7 counterexample: with a single-team pool and `min_teams = 2`,
construction succeeds (no validation exists) and the first `optimize` call
still submits a model to the solver — one solve happens, refuting "rejected
before any solve is attempted". -/
theorem c7_min_teams_counterexample :
    wF1CfgZ.minTeams = 2 ∧ wF1CfgZ.teams.length = 1 ∧
    (f1Optimize wF1CfgZ 5 wF1Params (fun _ => none)).solves = 1 ∧
    (f1Optimize wF1CfgZ 5 wF1Params (fun _ => none)).lineups = [] := by
  refine ⟨by decide, by decide, ?_, ?_⟩ <;>
    simp [f1Optimize, f1Loop, List.mergeSort_nil]

/-- C7 (amended): the F1 constructor performs no validation at all — it
always returns the stored configuration — and a `min_teams` exceeding the
pool's distinct team count is not rejected early: the model is built and
submitted once, the (sound) solver necessarily reports it infeasible, and
`optimize` returns the empty list rather than raising. -/
theorem c7_min_teams_amended :
    (∀ (pool : List F1Player) (cap mf mt ma : Nat),
      f1Init pool cap mf mt ma =
        ⟨pool, cap, mf, mt, ma, uniqueFirst (pool.map (·.team))⟩) ∧
    (∀ (cfg : F1Config) (pa : F1Params) (oracle : F1Model → Option F1Sel) (n : Nat),
      (∀ m s, oracle m = some s → F1Sat m s) →
      cfg.teams.length < cfg.minTeams → 0 < n →
      (f1Optimize cfg n pa oracle).lineups = [] ∧
        (f1Optimize cfg n pa oracle).solves = 1) := by
  refine ⟨fun pool cap mf mt ma => rfl, ?_⟩
  intro cfg pa oracle n hor hlt hn
  have hnone : oracle ⟨cfg, pa, [], fun _ => 0⟩ = none := by
    cases h : oracle ⟨cfg, pa, [], fun _ => 0⟩ with
    | none => rfl
    | some s =>
      exfalso
      have hsat := hor _ _ h
      have h7 : cfg.minTeams ≤ cfg.teams.countP (fun t => decide (t ∈ s.activeTeams)) :=
        hsat.2.2.2.2.2.2.1
      have hle : cfg.teams.countP (fun t => decide (t ∈ s.activeTeams)) ≤ cfg.teams.length :=
        List.countP_le_length _
      omega
  cases n with
  | zero => omega
  | succ k =>
    constructor <;> simp [f1Optimize, f1Loop, hnone, List.mergeSort_nil]

/-- Witness for C7 at concrete inputs. -/
theorem c7_min_teams_amended_witness :
    (f1Optimize wF1CfgZ 3 wF1Params (fun _ => none)).lineups = [] ∧
    (f1Optimize wF1CfgZ 3 wF1Params (fun _ => none)).solves = 1 :=
  c7_min_teams_amended.2 wF1CfgZ wF1Params (fun _ => none) 3
    (fun _ _ h => by cases h) (by decide) (by decide)

/-- C8 counterexample: a lineup returned by a concrete F1 advanced run whose
reported `teams_used` has 2 teams while the set of teams among its members
has 3 — the constructor's team Z is skipped by the extraction. -/
theorem c8_teams_used_counterexample :
    (f1Optimize wF1Cfg 1 wF1Params wF1Oracle).lineups = [f1Extract wF1Cfg.pool wF1Sel] ∧
    (f1Extract wF1Cfg.pool wF1Sel).teamsUsed.card = 2 ∧
    (((f1Extract wF1Cfg.pool wF1Sel).players).map (·.team)).toFinset.card = 3 := by
  refine ⟨by rw [wF1Run1], ?_, ?_⟩
  · decide
  · have hp : (((f1Extract wF1Cfg.pool wF1Sel).players).map (·.team)).toFinset =
        ((f1SelectedRows wF1Cfg.pool wF1Sel).map (·.team)).toFinset :=
      List.toFinset_eq_of_perm _ _ ((f1Extract_players_perm _ _).map _)
    rw [hp]
    decide

/-- C8 (amended): the reported `teams_used` set of an extracted lineup is
exactly the set of teams among its non-constructor (driver) members in the
F1 optimizer, and the set of teams among all members in the MLB optimizer;
in F1 its cardinality can therefore be smaller than the member-team count
whenever the constructor's team is not among the drivers' teams. -/
theorem c8_teams_used_amended :
    (∀ (pool : List F1Player) (s : F1Sel),
      (f1Extract pool s).teamsUsed =
        (((f1Extract pool s).players.filter (fun p => decide (p.pos ≠ "CNSTR"))).map
          (·.team)).toFinset) ∧
    (∀ (pool : List MLBPlayer) (ids : List Nat),
      (mlbExtract pool ids).teamsUsed =
        (((mlbExtract pool ids).players).map (·.team)).toFinset) := by
  constructor
  · intro pool s
    unfold f1Extract
    simp only []
    exact (List.toFinset_eq_of_perm _ _
      (((List.mergeSort_perm _ f1MemberLe).filter _).map (·.team))).symm
  · intro pool ids
    unfold mlbExtract
    simp only []
    exact (List.toFinset_eq_of_perm _ _
      ((List.mergeSort_perm _ mlbMemberLe).map (·.team))).symm

/-- C9 (code bug): calling the advanced WNBA `optimize` with `fade_teams`
scales the stored projections in place — after the call the stored pool is
not the pool the object started with: team T's projection dropped from 10
to 8 and stays there for any later call. -/
theorem c9_fade_mutates_pool :
    (nbaOptimize wSPool 50000 (3 / 2) 1 wNBAPaFade (fun _ _ => 0)
      (fun _ => none)).playersAfter ≠ wSPool ∧
    ((nbaOptimize wSPool 50000 (3 / 2) 1 wNBAPaFade (fun _ _ => 0)
      (fun _ => none)).playersAfter.map (·.avgPoints)) = [8, 10, 10, 10, 10, 10] ∧
    (wSPool.map (·.avgPoints)) = [10, 10, 10, 10, 10, 10] := by
  have hval : sValidateData wSPool = true := by decide
  have hrun : (nbaOptimize wSPool 50000 (3 / 2) 1 wNBAPaFade (fun _ _ => 0)
      (fun _ => none)).playersAfter = nbaFade wSPool wNBAPaFade.fadeTeams := by
    simp [nbaOptimize, hval, nbaLoop]
  have hmap : (nbaFade wSPool wNBAPaFade.fadeTeams).map (·.avgPoints) =
      [8, 10, 10, 10, 10, 10] := by
    simp [nbaFade, wNBAPaFade, wSPool]
    norm_num
  have hbase : (wSPool.map (·.avgPoints)) = [10, 10, 10, 10, 10, 10] := by
    simp [wSPool]
  refine ⟨?_, by rw [hrun, hmap], hbase⟩
  intro heq
  have h2 := congrArg (fun l => l.map (·.avgPoints)) heq
  simp only [] at h2
  rw [hrun, hmap, hbase] at h2
  norm_num at h2

/-- C10 (confirmed): with fewer than 6 player rows, both the base and the
advanced WNBA Showdown `optimize` return the empty list without building or
solving any model (and without touching the stored pool). -/
theorem c10_small_pool_empty :
    ∀ (pool : List SPlayer) (cap : Nat) (mult : ℚ) (num divy : Nat)
      (expo : Option (List (String × ℚ))) (oracle : SModel → Option SSel)
      (pa : NBAParams) (rand : Nat → Nat → ℚ) (oracle2 : NBAModel → Option SSel),
      pool.length < 6 →
      sOptimize pool cap mult num divy expo oracle = ⟨[], 0⟩ ∧
      nbaOptimize pool cap mult num pa rand oracle2 = ⟨[], pool, 0⟩ := by
  intro pool cap mult num divy expo oracle pa rand oracle2 h
  have hv : sValidateData pool = false := by
    unfold sValidateData
    simpa using h
  constructor
  · unfold sOptimize
    rw [hv]
    simp
  · unfold nbaOptimize
    rw [hv]
    simp

/-- Witness for C10 at a concrete five-row pool. -/
theorem c10_small_pool_empty_witness :
    sOptimize wSPool5 50000 (3 / 2) 3 2 none (fun _ => none) = ⟨[], 0⟩ ∧
    nbaOptimize wSPool5 50000 (3 / 2) 3 wNBAPa (fun _ _ => 0) (fun _ => none) =
      ⟨[], wSPool5, 0⟩ :=
  c10_small_pool_empty wSPool5 50000 (3 / 2) 3 2 none (fun _ => none) wNBAPa (fun _ _ => 0)
    (fun _ => none) (by decide)

end Claims
